import Mathlib

/-!
Verification development for the triage pipeline of reddit-rss-collector.

The embedded code is `src/filter.ts` (classifier client `triagePost`, batch
runner `triageNewPosts`, status reporter `getTriageStatus`, background runner
`startBackgroundTriage` / `stopBackgroundTriage`) together with the filter
HTTP routes (the `isTriaging` single-flight guard, POST `/api/filter` and
POST `/api/filter/stop`).

Modelling conventions:
* JS numbers are rationals (`ℚ`) together with an explicit NaN, written as
  `Option ℚ` with `none` for NaN.  JSON numbers themselves are never NaN or
  infinite, so a parsed `score` field of number type is a plain `ℚ`.
* The datastore is a list of `Post` rows; `prisma.post.update` is a
  row-scoped update keyed by id that fails with NotFound when the id is gone.
* The classifier service is an oracle `classify : ℕ → Except Unit X` keyed by
  post id: `.error` means the call threw (network error, timeout, or a
  non-JSON body); `.ok` is the normalised result `triagePost` returned.
* Cooperative concurrency: `requestStop()` can only be observed at the
  points where the runner reads `stopRequested`.  The environment is a
  schedule `env : ℕ → Bool`; `env t = true` means some task called
  `requestStop()` during the suspension points between flag read `t - 1` and
  flag read `t`.  The flag is only ever OR-ed in, mirroring that
  `requestStop` only sets it and only a run start clears it.
* Timestamps (`new Date()`) are an abstract `now : ℕ` parameter.
-/

set_option maxHeartbeats 1600000
set_option maxRecDepth 8192

namespace RRC

/-- JSON values as produced by `JSON.parse` (object keys may repeat in the
text; JS keeps the last occurrence on lookup). -/
inductive Json where
  | null : Json
  | bool : Bool → Json
  | num : ℚ → Json
  | str : String → Json
  | arr : List Json → Json
  | obj : List (String × Json) → Json

/-- Own-property lookup on a JS object literal; with repeated keys JS keeps
the last occurrence. -/
def lookupProp (fs : List (String × Json)) (k : String) : Option Json :=
  (fs.reverse.find? (fun f => f.1 == k)).map (fun f => f.2)

/-- JS property access `parsed.key` on a `JSON.parse` result: throws a
TypeError when the base is `null` (modelled as `.error`), yields the property
value when the base is an object carrying it (last occurrence wins), and
yields `undefined` (modelled as `none`) otherwise. -/
def getProp : Json → String → Except Unit (Option Json)
  | .null, _ => .error ()
  | .obj fs, k => .ok (lookupProp fs k)
  | _, _ => .ok none

/-- JS ToBoolean on a property-access result (`Boolean(x)` / truthiness of
`x` in `x || y`): `undefined`, `null`, `false`, `0` and `""` are falsy,
everything else is truthy. -/
def jsTruthy : Option Json → Bool
  | none => false
  | some .null => false
  | some (.bool b) => b
  | some (.num q) => q != 0
  | some (.str s) => !s.isEmpty
  | some (.arr _) => true
  | some (.obj _) => true

mutual

/-- JS ToString on JSON values.  Integer numbers render exactly as in JS;
the rendering of non-integer numbers is not modelled bit-for-bit (no theorem
below ever evaluates one).  Arrays join their elements with `","` with `null`
elements rendered empty; plain objects render as `"[object Object]"`. -/
def jsToString : Json → String
  | .null => "null"
  | .bool b => if b then "true" else "false"
  | .num q => if q.den = 1 then toString q.num else toString q.num ++ "/" ++ toString q.den
  | .str s => s
  | .arr xs => String.intercalate "," (jsToStringArr xs)
  | .obj _ => "[object Object]"

/-- Elementwise ToString for array joining; `null` (and in full JS also
`undefined`, which `JSON.parse` never produces) renders as the empty
string. -/
def jsToStringArr : List Json → List String
  | [] => []
  | j :: rest =>
    (match j with
     | .null => ""
     | j' => jsToString j') :: jsToStringArr rest

end

/-- Numeric value of a list of decimal digit characters. -/
def digitsVal (cs : List Char) : ℕ :=
  cs.foldl (fun acc c => 10 * acc + (c.toNat - 48)) 0

/-- JS StringToNumber restricted to the decimal fragment: optional
whitespace, optional sign, digits with an optional fractional part; the empty
(or all-whitespace) string is `0`; anything else is NaN.  The exponent, hex,
octal, binary and Infinity forms are not modelled (no theorem below ever
evaluates them). -/
def strToNumQ (s : String) : Option ℚ :=
  let t := s.trim
  if t = "" then some 0
  else
    let sgn : ℚ := if t.startsWith "-" then -1 else 1
    let body := if t.startsWith "-" || t.startsWith "+" then t.drop 1 else t
    match body.splitOn "." with
    | [ip] =>
      let ics := ip.toList
      if !ics.isEmpty && ics.all Char.isDigit then some (sgn * (digitsVal ics : ℚ))
      else none
    | [ip, fp] =>
      let ics := ip.toList
      let fcs := fp.toList
      if (!ics.isEmpty || !fcs.isEmpty) && ics.all Char.isDigit && fcs.all Char.isDigit then
        some (sgn * ((digitsVal ics : ℚ) + (digitsVal fcs : ℚ) / ((10 : ℚ) ^ fcs.length)))
      else none
    | _ => none

/-- JS ToNumber on a property-access result, as invoked by `Math.round`'s
argument coercion: `undefined ↦ NaN`, `null ↦ 0`, booleans to `0`/`1`,
strings via StringToNumber, arrays and objects via their ToString. -/
def jsToNumber : Option Json → Option ℚ
  | none => none
  | some .null => some 0
  | some (.bool b) => some (if b then 1 else 0)
  | some (.num q) => some q
  | some (.str s) => strToNumQ s
  | some (.arr xs) => strToNumQ (jsToString (.arr xs))
  | some (.obj fs) => strToNumQ (jsToString (.obj fs))

/-- Integer part of `Math.round` on an actual number: the nearest integer
with ties towards +∞, i.e. `⌊q + 1/2⌋`, written with integer euclidean
division so that it evaluates by kernel reduction. -/
def jsRoundQ (q : ℚ) : ℤ :=
  (2 * q.num + (q.den : ℤ)) / (2 * (q.den : ℤ))

/-- `Math.round`: NaN propagates, every actual number rounds to the nearest
integer with ties towards +∞. -/
def jsRound : Option ℚ → Option ℚ
  | none => none
  | some q => some ((jsRoundQ q : ℤ) : ℚ)

/-- `Math.min` (binary): NaN propagates. -/
def jsMin : Option ℚ → Option ℚ → Option ℚ
  | some a, some b => some (min a b)
  | _, _ => none

/-- `Math.max` (binary): NaN propagates. -/
def jsMax : Option ℚ → Option ℚ → Option ℚ
  | some a, some b => some (max a b)
  | _, _ => none

/-- The score normalisation of `triagePost` (filter.ts line 107):
`Math.max(0, Math.min(10, Math.round(parsed.score)))`. -/
def normalizeScore (x : Option ℚ) : Option ℚ :=
  jsMax (some 0) (jsMin (some 10) (jsRound x))

/-- The `TriageResult` interface of filter.ts (lines 20-24): `score` is a JS
number, hence `Option ℚ` with `none` for NaN. -/
structure TriageResult where
  passedTriage : Bool
  score : Option ℚ
  reason : String
deriving DecidableEq

/-- JS `.substring(0, n)`: the first `n` characters (JS counts UTF-16 units;
astral characters aside the two coincide).  Written on the character list so
that it evaluates by kernel reduction even for large `n`. -/
def jsTruncate (s : String) (n : ℕ) : String :=
  ⟨s.data.take n⟩

/-- The reason normalisation of `triagePost` (line 108):
`String(parsed.reason || "")` — the string of the property value when it is
truthy and `""` otherwise. -/
def jsOrEmptyToString (x : Option Json) : String :=
  if jsTruthy x then
    match x with
    | some j => jsToString j
    | none => ""
  else ""

/-- `triagePost` (filter.ts lines 80-114) from the `JSON.parse` outcome of
the model response text onward.  `none` stands for every path that reaches
the catch block before a parse result exists: the `generateContent` call
threw or timed out, or `JSON.parse` threw on a non-JSON body; all of these
are rethrown (`.error`).  A parsed value is read with plain property
accesses (`parsed.passedTriage` …, throwing only when `parsed` is `null`)
and coerced field by field: `Boolean(...)`, `Math.max(0, Math.min(10,
Math.round(...)))`, `String(... || "").substring(0, 500)`.  The eager
GEMINI_API_KEY check and the prompt construction precede the call and do not
affect this normalisation; the key is a separate parameter at the runner
level. -/
def triagePost (response : Option Json) : Except Unit TriageResult :=
  match response with
  | none => .error ()
  | some parsed =>
    match getProp parsed "passedTriage", getProp parsed "score", getProp parsed "reason" with
    | .ok pt, .ok sc, .ok rs =>
      .ok { passedTriage := jsTruthy pt
          , score := normalizeScore (jsToNumber sc)
          , reason := jsTruncate (jsOrEmptyToString rs) 500 }
    | _, _, _ => .error ()

/-- Test for the schema type BOOLEAN. -/
def isBoolJson : Json → Bool
  | .bool _ => true
  | _ => false

/-- Test for the schema type INTEGER (an integral JSON number). -/
def isIntJson : Json → Bool
  | .num q => q.den == 1
  | _ => false

/-- Test for the schema type STRING. -/
def isStrJson : Json → Bool
  | .str _ => true
  | _ => false

/-- Required property of the declared type. -/
def hasPropOfType (fs : List (String × Json)) (k : String) (ty : Json → Bool) : Bool :=
  match lookupProp fs k with
  | some j => ty j
  | none => false

/-- Conformance to `triageResultSchema` (filter.ts lines 27-44): an object
whose required properties `passedTriage`, `score`, `reason` have the declared
BOOLEAN, INTEGER and STRING types. -/
def schemaConforms : Json → Bool
  | .obj fs =>
    hasPropOfType fs "passedTriage" isBoolJson &&
    hasPropOfType fs "score" isIntJson &&
    hasPropOfType fs "reason" isStrJson
  | _ => false

/-! ### The datastore rows and the runner layer -/

/-- The triage subrecord columns of a Post row (prisma schema:
`isTriaged Boolean`, `passedTriage Boolean?`, `triageScore Int?`,
`triageReason String?`, `triagedAt DateTime?`). -/
structure TriageData where
  isTriaged : Bool
  passedTriage : Option Bool
  triageScore : Option ℤ
  triageReason : Option String
  triagedAt : Option ℕ
deriving DecidableEq

/-- The Pending subrecord ingestion creates. -/
def pendingData : TriageData :=
  { isTriaged := false, passedTriage := none, triageScore := none
  , triageReason := none, triagedAt := none }

/-- A Post row, reduced to the fields the pipeline reads or writes: the id
key, the `createdUtc` ordering field, and the triage subrecord.  The content
snapshot (title, body, …) only feeds the prompt text and never the control
flow. -/
structure Post where
  id : ℕ
  createdUtc : ℕ
  tri : TriageData
deriving DecidableEq

/-- A classifier outcome as consumed by the runners.  `triagePost` on a
schema-conforming response always yields an integral score (theorem
`normalizeScore_int_mem` below shows `normalizeScore` lands on an integer in
`[0,10]` for every JSON number); the runner layer therefore carries the
score as `ℤ`.  The NaN corner of a non-conforming response is analysed
separately on `TriageResult`. -/
structure RunTriageResult where
  passedTriage : Bool
  score : ℤ
  reason : String
deriving DecidableEq

/-- The Classified update written on success (filter.ts lines 151-160 and
255-264). -/
def classifiedData (r : RunTriageResult) (now : ℕ) : TriageData :=
  { isTriaged := true, passedTriage := some r.passedTriage
  , triageScore := some r.score, triageReason := some r.reason
  , triagedAt := some now }

/-- The Failed update written by the catch branches (filter.ts lines 174-183
and 271-280). -/
def failedData (now : ℕ) : TriageData :=
  { isTriaged := true, passedTriage := none, triageScore := none
  , triageReason := some "Triage failed", triagedAt := some now }

/-- The terminal subrecord a successful write for post `pid` produces, as a
function of the classifier oracle: the Classified data on `.ok`, the Failed
data on `.error`. -/
def terminalData (classify : ℕ → Except Unit RunTriageResult) (now : ℕ) (pid : ℕ) :
    TriageData :=
  match classify pid with
  | .ok r => classifiedData r now
  | .error _ => failedData now

/-- Rows with `isTriaged = false` ordered by `createdUtc` descending — the
shared shape of both runners' queries (filter.ts lines 131-136 and
241-245). -/
def pendingPosts (db : List Post) : List Post :=
  List.insertionSort (fun a b => b.createdUtc ≤ a.createdUtc)
    (db.filter (fun p => !p.tri.isTriaged))

/-- One page of the batch runner's fetch:
`findMany({where: {isTriaged: false}, take: batchSize, orderBy: {createdUtc: "desc"}})`. -/
def fetchPage (db : List Post) (batchSize : ℕ) : List Post :=
  (pendingPosts db).take batchSize

/-- Number of Pending rows, `count({where: {isTriaged: false}})`. -/
def pendingCount (db : List Post) : ℕ :=
  db.countP (fun p => !p.tri.isTriaged)

/-- Row lookup by id. -/
def findPost (db : List Post) (pid : ℕ) : Option Post :=
  db.find? (fun p => p.id == pid)

/-- Whether a row with this id exists. -/
def dbHasId (db : List Post) (pid : ℕ) : Bool :=
  db.any (fun p => p.id == pid)

/-- Per-row effect of the keyed update: replace the triage subrecord of the
row keyed `pid`, leave every other row alone. -/
def setTriFun (pid : ℕ) (d : TriageData) (q : Post) : Post :=
  if q.id == pid then { q with tri := d } else q

/-- Replace the triage subrecord of every row keyed `pid` (with unique ids,
of exactly the one row). -/
def setTri (db : List Post) (pid : ℕ) (d : TriageData) : List Post :=
  db.map (setTriFun pid d)

/-- Errors of the pipeline: the missing-credential error thrown at run
start, a classifier failure (`ClassificationError`), prisma's NotFound on an
update whose target id vanished, and the artificial out-of-fuel marker of
the loop embedding (provably unreachable with the fuel `triageNewPosts`
supplies). -/
inductive PipeError where
  | config
  | classification
  | notFound
  | fuelOut
deriving DecidableEq

/-- `prisma.post.update({where: {id}, data})`: NotFound when the id is gone,
otherwise the keyed row update. -/
def updatePost (db : List Post) (pid : ℕ) (d : TriageData) :
    Except PipeError (List Post) :=
  if dbHasId db pid then .ok (setTri db pid d) else .error .notFound

/-- The mutable state of a batch run: the datastore view, the stopRequested
flag, the index `t` of the next flag read, and the two counters. -/
structure LoopSt where
  db : List Post
  flag : Bool
  t : ℕ
  triaged : ℕ
  passed : ℕ
deriving DecidableEq

/-- One read of `stopRequested`: the current flag OR-ed with whatever
`requestStop()` calls the environment delivered since the previous read. -/
def checkFlag (env : ℕ → Bool) (st : LoopSt) : Bool × LoopSt :=
  let f := st.flag || env st.t
  (f, { st with flag := f, t := st.t + 1 })

/-- The try block of the batch loop body (filter.ts lines 148-171): call the
classifier, write the Classified record, bump `triaged` and conditionally
`passed`. -/
def tryTriageOne (classify : ℕ → Except Unit RunTriageResult) (now : ℕ)
    (st : LoopSt) (p : Post) : Except PipeError LoopSt :=
  match classify p.id with
  | .error _ => .error .classification
  | .ok r =>
    match updatePost st.db p.id (classifiedData r now) with
    | .error e => .error e
    | .ok db2 =>
      .ok { st with
            db := db2
            triaged := st.triaged + 1
            passed := if r.passedTriage then st.passed + 1 else st.passed }

/-- The full batch loop body (lines 148-185): on any failure of the try
block the catch block writes the Failed record and counts the post; a
NotFound thrown by that second update escapes — there is no further handler
around it. -/
def processPost (classify : ℕ → Except Unit RunTriageResult) (now : ℕ)
    (st : LoopSt) (p : Post) : Except PipeError LoopSt :=
  match tryTriageOne classify now st p with
  | .ok st2 => .ok st2
  | .error _ =>
    match updatePost st.db p.id (failedData now) with
    | .error e => .error e
    | .ok db2 => .ok { st with db := db2, triaged := st.triaged + 1 }

/-- The for-loop over one fetched page (lines 142-186): before each post one
flag read; on stop, abandon the remainder of the page; a per-post error
aborts the loop carrying the state from just before the failing body. -/
def runPage (classify : ℕ → Except Unit RunTriageResult) (now : ℕ)
    (env : ℕ → Bool) : List Post → LoopSt → LoopSt × Option PipeError
  | [], st => (st, none)
  | p :: rest, st =>
    let c := checkFlag env st
    if c.1 then (c.2, none)
    else
      match processPost classify now c.2 p with
      | .error e => (c.2, some e)
      | .ok st2 => runPage classify now env rest st2

/-- The while loop of `triageNewPosts` (lines 130-187): one flag read as the
loop condition, then a page fetch; an empty page ends the run; otherwise the
page loop runs and the while loop repeats.  `fuel` only bounds the
recursion; `triageNewPosts` passes enough for the loop to always reach its
real exit. -/
def runPages (classify : ℕ → Except Unit RunTriageResult) (now : ℕ)
    (env : ℕ → Bool) (batchSize : ℕ) : ℕ → LoopSt → LoopSt × Option PipeError
  | 0, st => (st, some .fuelOut)
  | fuel + 1, st =>
    let c := checkFlag env st
    if c.1 then (c.2, none)
    else
      let page := fetchPage c.2.db batchSize
      if page.isEmpty then (c.2, none)
      else
        match runPage classify now env page c.2 with
        | (st2, some e) => (st2, some e)
        | (st2, none) => runPages classify now env batchSize fuel st2

/-- The record `triageNewPosts` resolves with (lines 116-120). -/
structure BatchOutcome where
  triaged : ℕ
  passed : ℕ
  stopped : Bool
deriving DecidableEq

/-- `triageNewPosts` (filter.ts lines 116-190).  Throws the configuration
error when the credential is absent; otherwise line 125 resets the
stopRequested flag — `initFlag`, the value a previous run left behind, is
discarded — and the drain loop runs.  The returned `stopped` field reads the
flag once more at the return expression.  The final datastore view is
returned alongside so that partial progress on a thrown run stays
observable. -/
def triageNewPosts (apiKey : Bool) (batchSize : ℕ)
    (classify : ℕ → Except Unit RunTriageResult) (env : ℕ → Bool) (now : ℕ)
    (initFlag : Bool) (db : List Post) :
    Except PipeError BatchOutcome × List Post :=
  if !apiKey then (.error .config, db)
  else
    let st0 : LoopSt := { db := db, flag := false, t := 0, triaged := 0, passed := 0 }
    match runPages classify now env batchSize (db.length + 2) st0 with
    | (st, some e) => (.error e, st.db)
    | (st, none) =>
      let c := checkFlag env st
      (.ok { triaged := st.triaged, passed := st.passed, stopped := c.1 }, st.db)

/-- One iteration of the background loop body (filter.ts lines 239-288):
fetch the newest pending row (`findFirst`, idle-sleep when none), then the
same try/catch write as the batch body, all inside an outer try whose catch
only sleeps the error backoff — so a NotFound thrown by the catch-block
update is absorbed there and the datastore is left as it was. -/
def backgroundStep (classify : ℕ → Except Unit RunTriageResult) (now : ℕ)
    (db : List Post) : List Post :=
  match (pendingPosts db).head? with
  | none => db
  | some post =>
    match
      (match classify post.id with
       | .error _ => Except.error PipeError.classification
       | .ok r => updatePost db post.id (classifiedData r now)) with
    | .ok db2 => db2
    | .error _ =>
      match updatePost db post.id (failedData now) with
      | .ok db2 => db2
      | .error _ => db

/-- Inter-post delay of the batch runner in milliseconds (filter.ts
line 171). -/
def batchPostDelayMs : ℕ := 100

/-- Inter-post delay of the background runner in milliseconds (filter.ts
line 283). -/
def backgroundPostDelayMs : ℕ := 200

/-- Idle poll delay of the background runner when no pending post exists
(filter.ts line 248). -/
def backgroundIdleDelayMs : ℕ := 30000

/-- Error backoff of the background loop's outer catch (filter.ts
line 286). -/
def backgroundErrorBackoffMs : ℕ := 5000

/-! ### The filter HTTP routes -/

/-- The responses of POST `/api/filter` (filter routes lines 9-41). -/
inductive TriageHttp where
  | conflict
  | notConfigured
  | success (out : BatchOutcome)
  | failure (e : PipeError)
deriving DecidableEq

/-- HTTP status of each response variant: 409 for the single-flight
conflict, 500 for the missing key and for a thrown run, 200 on success. -/
def httpStatus : TriageHttp → ℕ
  | .conflict => 409
  | .notConfigured => 500
  | .success _ => 200
  | .failure _ => 500

/-- The error string of the 409 response body. -/
def alreadyRunningMsg : String := "Triage is already running"

/-- POST `/api/filter` (filter routes lines 9-41): reject with 409 while the
`isTriaging` guard is set, reject with 500 without the credential, otherwise
run `triageNewPosts` under the guard.  Returns the response, the datastore
after the request, and whether a batch run was started. -/
def handleTriageRequest (isTriaging : Bool) (apiKey : Bool) (batchSize : ℕ)
    (classify : ℕ → Except Unit RunTriageResult) (env : ℕ → Bool) (now : ℕ)
    (initFlag : Bool) (db : List Post) : TriageHttp × List Post × Bool :=
  if isTriaging then (.conflict, db, false)
  else if !apiKey then (.notConfigured, db, false)
  else
    match triageNewPosts apiKey batchSize classify env now initFlag db with
    | (.ok out, db2) => (.success out, db2, true)
    | (.error e, db2) => (.failure e, db2, true)

/-- POST `/api/filter/stop` (filter routes lines 61-74): 400 when no batch
run is active, otherwise `requestStop()` sets the flag.  Returns the status
and the flag after the request. -/
def handleStopRequest (isTriaging : Bool) (stopFlag : Bool) : ℕ × Bool :=
  if !isTriaging then (400, stopFlag) else (200, true)

/-! ### Derived notions used by the claims -/

/-- Unique primary keys: the rows of the datastore carry pairwise distinct
ids. -/
@[reducible]
def DistinctIds (db : List Post) : Prop :=
  db.Pairwise (fun a b => a.id ≠ b.id)

/-- The three legal states exactly as claim C5 words them: Pending,
Classified with a non-empty reason and an integer score in `[0,10]`, or
Failed with reason `"Triage failed"`. -/
def claimLegalState (r : TriageData) : Bool :=
  (r == pendingData) ||
  (r.isTriaged && r.passedTriage.isSome &&
    (match r.triageScore with
     | some k => decide (0 ≤ k) && decide (k ≤ 10)
     | none => false) &&
    (match r.triageReason with
     | some s => !s.isEmpty
     | none => false) &&
    r.triagedAt.isSome) ||
  (r.isTriaged && r.passedTriage.isNone && r.triageScore.isNone &&
    r.triageReason == some "Triage failed" && r.triagedAt.isSome)

/-- The legal states as the code actually maintains them: identical to
`claimLegalState` except that a Classified reason is any string of at most
500 characters — possibly empty. -/
def legalStateAmended (r : TriageData) : Bool :=
  (r == pendingData) ||
  (r.isTriaged && r.passedTriage.isSome &&
    (match r.triageScore with
     | some k => decide (0 ≤ k) && decide (k ≤ 10)
     | none => false) &&
    (match r.triageReason with
     | some s => decide (s.length ≤ 500)
     | none => false) &&
    r.triagedAt.isSome) ||
  (r.isTriaged && r.passedTriage.isNone && r.triageScore.isNone &&
    r.triageReason == some "Triage failed" && r.triagedAt.isSome)

/-- Contribution of one post to the `passed` counter. -/
def passInc (classify : ℕ → Except Unit RunTriageResult) (pid : ℕ) : ℕ :=
  match classify pid with
  | .ok r => if r.passedTriage then 1 else 0
  | .error _ => 0

/-- The `passed` counter accumulated over a list of processed posts. -/
def passCount (classify : ℕ → Except Unit RunTriageResult) (page : List Post) : ℕ :=
  (page.map (fun p => passInc classify p.id)).sum

/-- The datastore after terminally writing every post of `page` in order. -/
def writeAll (classify : ℕ → Except Unit RunTriageResult) (now : ℕ)
    (page : List Post) (db : List Post) : List Post :=
  page.foldl (fun d p => setTri d p.id (terminalData classify now p.id)) db

/-- Write relation between two datastore views: every row of the later view
is an original row, or an original row whose triage subrecord was terminally
rewritten by its id.  Every write either runner performs keeps the datastore
inside this relation. -/
def MemRel (classify : ℕ → Except Unit RunTriageResult) (now : ℕ)
    (db1 db2 : List Post) : Prop :=
  ∀ q2 ∈ db2, q2 ∈ db1 ∨
    ∃ q ∈ db1, q2 = { q with tri := terminalData classify now q.id }

/-! ### Basic lemmas about the datastore operations -/

theorem terminalData_isTriaged (classify : ℕ → Except Unit RunTriageResult)
    (now pid : ℕ) : (terminalData classify now pid).isTriaged = true := by
  cases h : classify pid <;> simp [terminalData, h, classifiedData, failedData]

theorem setTriFun_id (pid : ℕ) (d : TriageData) (q : Post) :
    (setTriFun pid d q).id = q.id := by
  unfold setTriFun
  split <;> rfl

theorem setTriFun_of_ne (pid : ℕ) (d : TriageData) {q : Post}
    (h : q.id ≠ pid) : setTriFun pid d q = q := by
  unfold setTriFun
  rw [if_neg]
  simpa using h

theorem setTriFun_of_eq (pid : ℕ) (d : TriageData) {q : Post}
    (h : q.id = pid) : setTriFun pid d q = { q with tri := d } := by
  unfold setTriFun
  rw [if_pos]
  simpa using h

theorem setTri_cons (p : Post) (rest : List Post) (pid : ℕ) (d : TriageData) :
    setTri (p :: rest) pid d = setTriFun pid d p :: setTri rest pid d := rfl

theorem setTri_map_id (db : List Post) (pid : ℕ) (d : TriageData) :
    (setTri db pid d).map Post.id = db.map Post.id := by
  unfold setTri
  rw [List.map_map]
  exact List.map_congr_left fun a _ => setTriFun_id pid d a

theorem dbHasId_setTri (db : List Post) (pid pid2 : ℕ) (d : TriageData) :
    dbHasId (setTri db pid d) pid2 = dbHasId db pid2 := by
  induction db with
  | nil => rfl
  | cons p rest ih =>
    rw [setTri_cons]
    simp only [dbHasId, List.any_cons] at ih ⊢
    rw [setTriFun_id, ih]

theorem distinctIds_setTri {db : List Post} (pid : ℕ) (d : TriageData)
    (h : DistinctIds db) : DistinctIds (setTri db pid d) := by
  unfold DistinctIds setTri
  rw [List.pairwise_map]
  refine h.imp_of_mem ?_
  intro a b _ _ hab
  rw [setTriFun_id, setTriFun_id]
  exact hab

theorem findPost_setTri_ne {db : List Post} {pid pid2 : ℕ} (d : TriageData)
    (h : pid2 ≠ pid) : findPost (setTri db pid d) pid2 = findPost db pid2 := by
  induction db with
  | nil => rfl
  | cons p rest ih =>
    rw [setTri_cons]
    unfold findPost at ih ⊢
    by_cases hq : p.id = pid2
    · rw [List.find?_cons_of_pos, List.find?_cons_of_pos]
      · have : setTriFun pid d p = p := setTriFun_of_ne pid d (by omega)
        rw [this]
      · simpa using hq
      · rw [setTriFun_id]
        simpa using hq
    · rw [List.find?_cons_of_neg, List.find?_cons_of_neg]
      · exact ih
      · simpa using hq
      · rw [setTriFun_id]
        simpa using hq

theorem findPost_setTri_self {db : List Post} {pid : ℕ} {q : Post} (d : TriageData)
    (h : findPost db pid = some q) :
    findPost (setTri db pid d) pid = some { q with tri := d } := by
  induction db with
  | nil => simp [findPost] at h
  | cons p rest ih =>
    rw [setTri_cons]
    unfold findPost at h ih ⊢
    by_cases hp : p.id = pid
    · rw [List.find?_cons_of_pos _ (by simpa using hp)] at h
      rw [List.find?_cons_of_pos _ (by rw [setTriFun_id]; simpa using hp)]
      cases h
      rw [setTriFun_of_eq pid d hp]
    · rw [List.find?_cons_of_neg _ (by simpa using hp)] at h
      rw [List.find?_cons_of_neg _ (by rw [setTriFun_id]; simpa using hp)]
      exact ih h

theorem findPost_mem {db : List Post} {pid : ℕ} {q : Post}
    (h : findPost db pid = some q) : q ∈ db :=
  List.mem_of_find?_eq_some h

theorem findPost_id {db : List Post} {pid : ℕ} {q : Post}
    (h : findPost db pid = some q) : q.id = pid := by
  have := List.find?_some h
  simpa using this

theorem findPost_of_mem {db : List Post} {p : Post} (hdd : DistinctIds db)
    (h : p ∈ db) : findPost db p.id = some p := by
  induction db with
  | nil => simp at h
  | cons q rest ih =>
    have hdd2 := (List.pairwise_cons.mp hdd)
    rcases List.mem_cons.mp h with rfl | hmem
    · unfold findPost
      rw [List.find?_cons_of_pos _ (by simp)]
    · unfold findPost
      rw [List.find?_cons_of_neg _ (by simpa using hdd2.1 p hmem)]
      exact ih hdd2.2 hmem

theorem dbHasId_of_findPost {db : List Post} {pid : ℕ} {q : Post}
    (h : findPost db pid = some q) : dbHasId db pid = true := by
  have hm : q ∈ db := findPost_mem h
  have hid : q.id = pid := findPost_id h
  unfold dbHasId
  rw [List.any_eq_true]
  exact ⟨q, hm, by simpa using hid⟩

theorem findPost_of_dbHasId {db : List Post} {pid : ℕ}
    (h : dbHasId db pid = true) : ∃ q, findPost db pid = some q := by
  unfold dbHasId at h
  rw [List.any_eq_true] at h
  rcases h with ⟨q, hq, hid⟩
  rcases hfind : findPost db pid with _ | r
  · unfold findPost at hfind
    have := List.find?_eq_none.mp hfind q hq
    exact absurd hid this
  · exact ⟨r, rfl⟩

theorem setTri_of_absent {db : List Post} {pid : ℕ} (d : TriageData)
    (h : ∀ r ∈ db, r.id ≠ pid) : setTri db pid d = db := by
  unfold setTri
  rw [show db.map (setTriFun pid d) = db.map id from
    List.map_congr_left fun a ha => by rw [setTriFun_of_ne pid d (h a ha)]; rfl]
  exact List.map_id db

theorem pendingCount_setTri {db : List Post} {pid : ℕ} {q : Post} {d : TriageData}
    (hdd : DistinctIds db) (hq : findPost db pid = some q)
    (hpend : q.tri.isTriaged = false) (hd : d.isTriaged = true) :
    pendingCount (setTri db pid d) + 1 = pendingCount db := by
  induction db with
  | nil => simp [findPost] at hq
  | cons p rest ih =>
    have hdd2 := (List.pairwise_cons.mp hdd)
    rw [setTri_cons]
    unfold findPost at hq
    unfold pendingCount at ih ⊢
    by_cases hp : p.id = pid
    · rw [List.find?_cons_of_pos _ (by simpa using hp)] at hq
      cases hq
      have hrest : setTri rest pid d = rest := by
        refine setTri_of_absent d ?_
        intro r hr
        have := hdd2.1 r hr
        omega
      rw [hrest, setTriFun_of_eq pid d hp]
      rw [List.countP_cons, List.countP_cons]
      simp only [hd, hpend]
      simp
    · rw [List.find?_cons_of_neg _ (by simpa using hp)] at hq
      have := ih hdd2.2 hq
      rw [setTriFun_of_ne pid d hp]
      rw [List.countP_cons, List.countP_cons]
      omega

/-! ### Lemmas about the pending queries -/

theorem pendingPosts_perm (db : List Post) :
    (pendingPosts db).Perm (db.filter (fun p => !p.tri.isTriaged)) :=
  List.perm_insertionSort _ _

theorem mem_pendingPosts {db : List Post} {p : Post} :
    p ∈ pendingPosts db ↔ p ∈ db ∧ p.tri.isTriaged = false := by
  rw [(pendingPosts_perm db).mem_iff, List.mem_filter]
  simp

theorem length_pendingPosts (db : List Post) :
    (pendingPosts db).length = pendingCount db := by
  rw [(pendingPosts_perm db).length_eq, pendingCount, List.countP_eq_length_filter]

theorem pairwise_pendingPosts {db : List Post} (hdd : DistinctIds db) :
    (pendingPosts db).Pairwise (fun a b => a.id ≠ b.id) := by
  have hf : (db.filter (fun p => !p.tri.isTriaged)).Pairwise (fun a b => a.id ≠ b.id) :=
    hdd.filter _
  exact ((pendingPosts_perm db).pairwise_iff (fun h => h.symm)).mpr hf

theorem fetchPage_sublist (db : List Post) (n : ℕ) :
    (fetchPage db n).Sublist (pendingPosts db) :=
  List.take_sublist n (pendingPosts db)

theorem mem_fetchPage {db : List Post} {n : ℕ} {p : Post}
    (h : p ∈ fetchPage db n) : p ∈ db ∧ p.tri.isTriaged = false :=
  mem_pendingPosts.mp ((fetchPage_sublist db n).subset h)

theorem pairwise_fetchPage {db : List Post} (n : ℕ) (hdd : DistinctIds db) :
    (fetchPage db n).Pairwise (fun a b => a.id ≠ b.id) :=
  List.Pairwise.sublist (fetchPage_sublist db n) (pairwise_pendingPosts hdd)

theorem fetchPage_isEmpty_iff {db : List Post} {n : ℕ} (hn : 0 < n) :
    (fetchPage db n).isEmpty = true ↔ pendingCount db = 0 := by
  rw [List.isEmpty_iff, fetchPage, List.take_eq_nil_iff, ← length_pendingPosts]
  constructor
  · rintro (h | h)
    · omega
    · rw [h]
      rfl
  · intro h
    right
    rw [← List.length_eq_zero]
    exact h

theorem fetchPage_full {db : List Post} {n : ℕ} (h : pendingCount db ≤ n) :
    fetchPage db n = pendingPosts db := by
  rw [fetchPage]
  exact List.take_of_length_le (by rw [length_pendingPosts]; exact h)

/-! ### Characterisation of the per-post loop body -/

theorem processPost_ok (classify : ℕ → Except Unit RunTriageResult) (now : ℕ)
    (st : LoopSt) (p : Post) (h : dbHasId st.db p.id = true) :
    processPost classify now st p =
      .ok { st with
            db := setTri st.db p.id (terminalData classify now p.id)
            triaged := st.triaged + 1
            passed := st.passed + passInc classify p.id } := by
  cases hc : classify p.id with
  | ok r =>
    unfold processPost tryTriageOne updatePost
    rw [hc]
    simp only [h, if_true]
    unfold terminalData passInc
    rw [hc]
    cases hr : r.passedTriage <;> simp [hr]
  | error e =>
    unfold processPost tryTriageOne updatePost
    rw [hc]
    simp only [h, if_true]
    unfold terminalData passInc
    rw [hc]
    simp

theorem processPost_notFound (classify : ℕ → Except Unit RunTriageResult) (now : ℕ)
    (st : LoopSt) (p : Post) (h : dbHasId st.db p.id = false) :
    processPost classify now st p = .error .notFound := by
  cases hc : classify p.id with
  | ok r =>
    unfold processPost tryTriageOne updatePost
    rw [hc]
    simp [h]
  | error e =>
    unfold processPost tryTriageOne updatePost
    rw [hc]
    simp [h]

/-! ### Lemmas about batched terminal writes -/

theorem writeAll_nil (classify : ℕ → Except Unit RunTriageResult) (now : ℕ)
    (db : List Post) : writeAll classify now [] db = db := rfl

theorem writeAll_cons (classify : ℕ → Except Unit RunTriageResult) (now : ℕ)
    (p : Post) (rest : List Post) (db : List Post) :
    writeAll classify now (p :: rest) db =
      writeAll classify now rest (setTri db p.id (terminalData classify now p.id)) := rfl

theorem passCount_nil (classify : ℕ → Except Unit RunTriageResult) :
    passCount classify [] = 0 := rfl

theorem passCount_cons (classify : ℕ → Except Unit RunTriageResult)
    (p : Post) (rest : List Post) :
    passCount classify (p :: rest) = passInc classify p.id + passCount classify rest := by
  simp [passCount, List.sum_cons]

theorem passInc_le_one (classify : ℕ → Except Unit RunTriageResult) (pid : ℕ) :
    passInc classify pid ≤ 1 := by
  unfold passInc
  cases h : classify pid with
  | ok r =>
    show (if r.passedTriage = true then 1 else 0) ≤ 1
    split <;> omega
  | error e =>
    show (0 : ℕ) ≤ 1
    omega

theorem passCount_le_length (classify : ℕ → Except Unit RunTriageResult)
    (L : List Post) : passCount classify L ≤ L.length := by
  induction L with
  | nil => simp [passCount_nil]
  | cons p rest ih =>
    rw [passCount_cons]
    have := passInc_le_one classify p.id
    simp only [List.length_cons]
    omega

theorem writeAll_map_id (classify : ℕ → Except Unit RunTriageResult) (now : ℕ)
    (L : List Post) : ∀ db, (writeAll classify now L db).map Post.id = db.map Post.id := by
  induction L with
  | nil => intro db; rfl
  | cons p rest ih =>
    intro db
    rw [writeAll_cons, ih, setTri_map_id]

theorem distinctIds_iff_nodup {db : List Post} :
    DistinctIds db ↔ (db.map Post.id).Nodup := by
  unfold DistinctIds
  rw [List.Nodup, List.pairwise_map]

theorem distinctIds_of_map_id_eq {db db2 : List Post}
    (h : db2.map Post.id = db.map Post.id) (hdd : DistinctIds db) : DistinctIds db2 := by
  rw [distinctIds_iff_nodup] at hdd ⊢
  rw [h]
  exact hdd

theorem dbHasId_iff_mem_map {db : List Post} {pid : ℕ} :
    dbHasId db pid = true ↔ pid ∈ db.map Post.id := by
  unfold dbHasId
  rw [List.any_eq_true, List.mem_map]
  constructor
  · rintro ⟨q, hq, hid⟩
    exact ⟨q, hq, by simpa using hid⟩
  · rintro ⟨q, hq, hid⟩
    exact ⟨q, hq, by simpa using hid⟩

theorem writeAll_findPost_notin (classify : ℕ → Except Unit RunTriageResult) (now : ℕ)
    {L : List Post} {pid : ℕ} (hL : ∀ p ∈ L, p.id ≠ pid) :
    ∀ db, findPost (writeAll classify now L db) pid = findPost db pid := by
  induction L with
  | nil => intro db; rfl
  | cons p rest ih =>
    intro db
    rw [writeAll_cons, ih (fun q hq => hL q (List.mem_cons_of_mem p hq)),
      findPost_setTri_ne _ (Ne.symm (hL p (List.mem_cons_self p rest)))]

theorem writeAll_findPost_mem (classify : ℕ → Except Unit RunTriageResult) (now : ℕ)
    {L : List Post} {p : Post}
    (hpair : L.Pairwise (fun a b => a.id ≠ b.id)) (hp : p ∈ L) :
    ∀ db, (∀ q ∈ L, findPost db q.id = some q) →
      findPost (writeAll classify now L db) p.id =
        some { p with tri := terminalData classify now p.id } := by
  induction L with
  | nil => simp at hp
  | cons q rest ih =>
    intro db hcur
    have hpair2 := List.pairwise_cons.mp hpair
    rw [writeAll_cons]
    rcases List.mem_cons.mp hp with rfl | hmem
    · rw [writeAll_findPost_notin classify now
        (fun r hr => Ne.symm (hpair2.1 r hr)) _,
        findPost_setTri_self _ (hcur p (List.mem_cons_self p rest))]
    · refine ih hpair2.2 hmem _ ?_
      intro r hr
      rw [findPost_setTri_ne _ (hpair2.1 r hr).symm]
      exact hcur r (List.mem_cons_of_mem q hr)

theorem pendingCount_writeAll (classify : ℕ → Except Unit RunTriageResult) (now : ℕ)
    {L : List Post} (hpair : L.Pairwise (fun a b => a.id ≠ b.id))
    (hpend : ∀ p ∈ L, p.tri.isTriaged = false) :
    ∀ db, DistinctIds db → (∀ q ∈ L, findPost db q.id = some q) →
      pendingCount (writeAll classify now L db) + L.length = pendingCount db := by
  induction L with
  | nil => intro db _ _; simp [writeAll_nil]
  | cons p rest ih =>
    intro db hdd hcur
    have hpair2 := List.pairwise_cons.mp hpair
    rw [writeAll_cons]
    have hstep : pendingCount (setTri db p.id (terminalData classify now p.id)) + 1 =
        pendingCount db :=
      pendingCount_setTri hdd (hcur p (List.mem_cons_self p rest))
        (hpend p (List.mem_cons_self p rest)) (terminalData_isTriaged classify now p.id)
    have hrec := ih hpair2.2 (fun q hq => hpend q (List.mem_cons_of_mem p hq))
      (setTri db p.id (terminalData classify now p.id))
      (distinctIds_setTri _ _ hdd)
      (fun q hq => by
        rw [findPost_setTri_ne _ (hpair2.1 q hq).symm]
        exact hcur q (List.mem_cons_of_mem p hq))
    simp only [List.length_cons]
    omega

theorem memRel_refl (classify : ℕ → Except Unit RunTriageResult) (now : ℕ)
    (db : List Post) : MemRel classify now db db :=
  fun q2 hq2 => Or.inl hq2

theorem memRel_trans {classify : ℕ → Except Unit RunTriageResult} {now : ℕ}
    {db1 db2 db3 : List Post} (h12 : MemRel classify now db1 db2)
    (h23 : MemRel classify now db2 db3) : MemRel classify now db1 db3 := by
  intro q3 hq3
  rcases h23 q3 hq3 with h | ⟨q2, hq2, rfl⟩
  · exact h12 q3 h
  · rcases h12 q2 hq2 with h | ⟨q1, hq1, rfl⟩
    · exact Or.inr ⟨q2, h, rfl⟩
    · exact Or.inr ⟨q1, hq1, rfl⟩

theorem memRel_setTri (classify : ℕ → Except Unit RunTriageResult) (now : ℕ)
    (db : List Post) (pid : ℕ) :
    MemRel classify now db (setTri db pid (terminalData classify now pid)) := by
  intro q2 hq2
  unfold setTri at hq2
  rcases List.mem_map.mp hq2 with ⟨q, hq, rfl⟩
  by_cases h : q.id = pid
  · rw [setTriFun_of_eq _ _ h, h]
    exact Or.inr ⟨q, hq, by rw [h]⟩
  · rw [setTriFun_of_ne _ _ h]
    exact Or.inl hq

/-! ### Characterisation of the page loop -/

theorem runPage_full (classify : ℕ → Except Unit RunTriageResult) (now : ℕ)
    (env : ℕ → Bool) {page : List Post}
    (hpair : page.Pairwise (fun a b => a.id ≠ b.id)) :
    ∀ st : LoopSt, st.flag = false →
      (∀ t, st.t ≤ t → t < st.t + page.length → env t = false) →
      (∀ p ∈ page, findPost st.db p.id = some p) →
      runPage classify now env page st =
        ({ db := writeAll classify now page st.db
         , flag := false
         , t := st.t + page.length
         , triaged := st.triaged + page.length
         , passed := st.passed + passCount classify page }, none) := by
  induction page with
  | nil =>
    intro st hflag _ _
    cases st
    simp only [runPage, writeAll_nil, passCount_nil, List.length_nil, Nat.add_zero]
    simp_all
  | cons p rest ih =>
    intro st hflag henv hcur
    have hpair2 := List.pairwise_cons.mp hpair
    have henv0 : env st.t = false := by
      refine henv st.t (le_refl _) ?_
      simp only [List.length_cons]
      omega
    have hhas : dbHasId st.db p.id = true :=
      dbHasId_of_findPost (hcur p (List.mem_cons_self p rest))
    simp only [runPage, checkFlag, hflag, henv0, Bool.or_self, Bool.false_or, if_neg,
      Bool.false_eq_true, not_false_iff]
    rw [processPost_ok classify now _ p (by simpa using hhas)]
    dsimp only
    rw [ih hpair2.2
      { db := setTri st.db p.id (terminalData classify now p.id)
      , flag := false
      , t := st.t + 1
      , triaged := st.triaged + 1
      , passed := st.passed + passInc classify p.id } rfl
      (by
        intro t h1 h2
        have h1a : st.t + 1 ≤ t := h1
        have h2a : t < st.t + 1 + rest.length := h2
        refine henv t (by omega) (by simp only [List.length_cons]; omega))
      (by
        intro q hq
        show findPost (setTri st.db p.id (terminalData classify now p.id)) q.id = some q
        rw [findPost_setTri_ne _ (hpair2.1 q hq).symm]
        exact hcur q (List.mem_cons_of_mem p hq))]
    simp only [writeAll_cons, passCount_cons, List.length_cons, Prod.mk.injEq,
      LoopSt.mk.injEq, and_true, true_and]
    and_intros <;> first | rfl | omega

theorem runPage_break (classify : ℕ → Except Unit RunTriageResult) (now : ℕ)
    (env : ℕ → Bool) {M : ℕ} {page : List Post}
    (hpair : page.Pairwise (fun a b => a.id ≠ b.id)) :
    ∀ st : LoopSt, st.flag = false →
      st.t ≤ M → M < st.t + page.length →
      (∀ t, st.t ≤ t → t < M → env t = false) → env M = true →
      (∀ p ∈ page, findPost st.db p.id = some p) →
      runPage classify now env page st =
        ({ db := writeAll classify now (page.take (M - st.t)) st.db
         , flag := true
         , t := M + 1
         , triaged := st.triaged + (M - st.t)
         , passed := st.passed + passCount classify (page.take (M - st.t)) }, none) := by
  induction page with
  | nil =>
    intro st _ h1 h2 _ _ _
    simp only [List.length_nil] at h2
    omega
  | cons p rest ih =>
    intro st hflag h1 h2 henvlt henvM hcur
    have hpair2 := List.pairwise_cons.mp hpair
    by_cases hM : st.t = M
    · subst hM
      simp only [runPage, checkFlag, hflag, henvM, Bool.false_or, if_pos]
      have : st.t - st.t = 0 := by omega
      simp only [this, List.take_zero, writeAll_nil, passCount_nil, Nat.add_zero,
        Prod.mk.injEq, LoopSt.mk.injEq]
    · have hlt : st.t < M := by omega
      have henv0 : env st.t = false := henvlt st.t (le_refl _) hlt
      have hhas : dbHasId st.db p.id = true :=
        dbHasId_of_findPost (hcur p (List.mem_cons_self p rest))
      simp only [runPage, checkFlag, hflag, henv0, Bool.or_self, Bool.false_or, if_neg,
        Bool.false_eq_true, not_false_iff]
      rw [processPost_ok classify now _ p (by simpa using hhas)]
      dsimp only
      rw [ih hpair2.2
        { db := setTri st.db p.id (terminalData classify now p.id)
        , flag := false
        , t := st.t + 1
        , triaged := st.triaged + 1
        , passed := st.passed + passInc classify p.id } rfl
        (by show st.t + 1 ≤ M; omega)
        (by
          show M < st.t + 1 + rest.length
          simp only [List.length_cons] at h2
          omega)
        (by
          intro t ht1 ht2
          have ht1a : st.t + 1 ≤ t := ht1
          exact henvlt t (by omega) ht2) henvM
        (by
          intro q hq
          show findPost (setTri st.db p.id (terminalData classify now p.id)) q.id = some q
          rw [findPost_setTri_ne _ (hpair2.1 q hq).symm]
          exact hcur q (List.mem_cons_of_mem p hq))]
      have htake : (p :: rest).take (M - st.t) = p :: rest.take (M - (st.t + 1)) := by
        rw [List.take_cons (by omega), Nat.sub_sub]
      rw [htake]
      simp only [writeAll_cons, passCount_cons, Prod.mk.injEq, LoopSt.mk.injEq,
        List.length_cons, and_true, true_and]
      and_intros <;> first | rfl | omega

theorem runPage_prefix (classify : ℕ → Except Unit RunTriageResult) (now : ℕ)
    (env : ℕ → Bool) {page : List Post}
    (hpair : page.Pairwise (fun a b => a.id ≠ b.id)) :
    ∀ st : LoopSt, (∀ p ∈ page, findPost st.db p.id = some p) →
      ∃ k f tt, k ≤ page.length ∧
        runPage classify now env page st =
          ({ db := writeAll classify now (page.take k) st.db
           , flag := f
           , t := tt
           , triaged := st.triaged + k
           , passed := st.passed + passCount classify (page.take k) }, none) := by
  induction page with
  | nil =>
    intro st _
    refine ⟨0, st.flag, st.t, by omega, ?_⟩
    cases st
    simp [runPage, writeAll_nil, passCount_nil]
  | cons p rest ih =>
    intro st hcur
    have hpair2 := List.pairwise_cons.mp hpair
    by_cases hstop : (st.flag || env st.t) = true
    · refine ⟨0, st.flag || env st.t, st.t + 1, by omega, ?_⟩
      simp only [runPage, checkFlag, hstop, if_pos]
      simp only [List.take_zero, writeAll_nil, passCount_nil, Nat.add_zero]
    · rw [Bool.not_eq_true] at hstop
      have hhas : dbHasId st.db p.id = true :=
        dbHasId_of_findPost (hcur p (List.mem_cons_self p rest))
      simp only [runPage, checkFlag, hstop, if_neg, Bool.false_eq_true, not_false_iff]
      rw [processPost_ok classify now _ p (by simpa using hhas)]
      dsimp only
      rcases ih hpair2.2
        { db := setTri st.db p.id (terminalData classify now p.id)
        , flag := false
        , t := st.t + 1
        , triaged := st.triaged + 1
        , passed := st.passed + passInc classify p.id }
        (by
          intro q hq
          show findPost (setTri st.db p.id (terminalData classify now p.id)) q.id = some q
          rw [findPost_setTri_ne _ (hpair2.1 q hq).symm]
          exact hcur q (List.mem_cons_of_mem p hq)) with ⟨k, f, tt, hk, heq⟩
      refine ⟨k + 1, f, tt, by simp only [List.length_cons]; omega, ?_⟩
      rw [heq]
      have htake : (p :: rest).take (k + 1) = p :: rest.take k := by
        rw [List.take_cons (by omega), Nat.add_sub_cancel]
      rw [htake]
      dsimp only
      simp only [writeAll_cons, passCount_cons, Prod.mk.injEq, LoopSt.mk.injEq,
        and_true, true_and]
      and_intros <;> first | rfl | omega

/-! ### Unfolding equations for the loops -/

theorem runPage_cons_eq (classify : ℕ → Except Unit RunTriageResult) (now : ℕ)
    (env : ℕ → Bool) (p : Post) (rest : List Post) (st : LoopSt) :
    runPage classify now env (p :: rest) st =
      (if (st.flag || env st.t) = true
       then ({ st with flag := st.flag || env st.t, t := st.t + 1 }, none)
       else
         match processPost classify now
             { st with flag := st.flag || env st.t, t := st.t + 1 } p with
         | .error e => ({ st with flag := st.flag || env st.t, t := st.t + 1 }, some e)
         | .ok st2 => runPage classify now env rest st2) := rfl

theorem runPages_succ_eq (classify : ℕ → Except Unit RunTriageResult) (now : ℕ)
    (env : ℕ → Bool) (batchSize n : ℕ) (st : LoopSt) :
    runPages classify now env batchSize (n + 1) st =
      (if (st.flag || env st.t) = true
       then ({ st with flag := st.flag || env st.t, t := st.t + 1 }, none)
       else if (fetchPage st.db batchSize).isEmpty = true
       then ({ st with flag := st.flag || env st.t, t := st.t + 1 }, none)
       else
         match runPage classify now env (fetchPage st.db batchSize)
             { st with flag := st.flag || env st.t, t := st.t + 1 } with
         | (st2, some e) => (st2, some e)
         | (st2, none) => runPages classify now env batchSize n st2) := rfl

/-! ### The element-wise relation along whole runs -/

theorem processPost_memRel {classify : ℕ → Except Unit RunTriageResult} {now : ℕ}
    {st st2 : LoopSt} {p : Post}
    (h : processPost classify now st p = .ok st2) :
    MemRel classify now st.db st2.db := by
  by_cases hh : dbHasId st.db p.id = true
  · rw [processPost_ok classify now st p hh] at h
    cases h
    exact memRel_setTri classify now st.db p.id
  · rw [processPost_notFound classify now st p (by simpa using hh)] at h
    cases h

theorem runPage_memRel (classify : ℕ → Except Unit RunTriageResult) (now : ℕ)
    (env : ℕ → Bool) : ∀ (page : List Post) (st : LoopSt),
    MemRel classify now st.db (runPage classify now env page st).1.db := by
  intro page
  induction page with
  | nil =>
    intro st
    exact memRel_refl _ _ _
  | cons p rest ih =>
    intro st
    rw [runPage_cons_eq]
    by_cases hstop : (st.flag || env st.t) = true
    · rw [if_pos hstop]
      exact memRel_refl classify now st.db
    · rw [if_neg hstop]
      rcases hp : processPost classify now
          { st with flag := st.flag || env st.t, t := st.t + 1 } p with e | stmid
      · exact memRel_refl classify now st.db
      · have h1 := processPost_memRel hp
        exact memRel_trans h1 (ih stmid)

theorem runPages_memRel (classify : ℕ → Except Unit RunTriageResult) (now : ℕ)
    (env : ℕ → Bool) (batchSize : ℕ) : ∀ (fuel : ℕ) (st : LoopSt),
    MemRel classify now st.db (runPages classify now env batchSize fuel st).1.db := by
  intro fuel
  induction fuel with
  | zero =>
    intro st
    exact memRel_refl _ _ _
  | succ n ih =>
    intro st
    rw [runPages_succ_eq]
    by_cases hstop : (st.flag || env st.t) = true
    · rw [if_pos hstop]
      exact memRel_refl classify now st.db
    · rw [if_neg hstop]
      by_cases hpage : (fetchPage st.db batchSize).isEmpty = true
      · rw [if_pos hpage]
        exact memRel_refl classify now st.db
      · rw [if_neg hpage]
        rcases hrp : runPage classify now env (fetchPage st.db batchSize)
            { st with flag := st.flag || env st.t, t := st.t + 1 } with ⟨stmid, oe⟩
        have h1 : MemRel classify now st.db stmid.db := by
          have h0 := runPage_memRel classify now env (fetchPage st.db batchSize)
            { st with flag := st.flag || env st.t, t := st.t + 1 }
          rw [hrp] at h0
          exact h0
        cases oe with
        | none => exact memRel_trans h1 (ih stmid)
        | some e => exact h1

theorem backgroundStep_memRel (classify : ℕ → Except Unit RunTriageResult) (now : ℕ)
    (db : List Post) : MemRel classify now db (backgroundStep classify now db) := by
  unfold backgroundStep updatePost
  rcases hh : (pendingPosts db).head? with _ | post
  · exact memRel_refl _ _ _
  · rcases hc : classify post.id with e | r
    · simp only [hc]
      by_cases hhas : dbHasId db post.id = true
      · simp only [hhas, if_true]
        rw [show failedData now = terminalData classify now post.id by
          unfold terminalData
          rw [hc]]
        exact memRel_setTri classify now db post.id
      · rw [Bool.not_eq_true] at hhas
        simp only [hhas, Bool.false_eq_true, if_false]
        exact memRel_refl _ _ _
    · simp only [hc]
      by_cases hhas : dbHasId db post.id = true
      · simp only [hhas, if_true]
        rw [show classifiedData r now = terminalData classify now post.id by
          unfold terminalData
          rw [hc]]
        exact memRel_setTri classify now db post.id
      · rw [Bool.not_eq_true] at hhas
        simp only [hhas, Bool.false_eq_true, if_false]
        exact memRel_refl _ _ _

/-! ### Global invariants of the while loop -/

theorem runPages_master (classify : ℕ → Except Unit RunTriageResult) (now : ℕ)
    (env : ℕ → Bool) (batchSize : ℕ) :
    ∀ (fuel : ℕ) (st : LoopSt), DistinctIds st.db →
      ∀ st2 oe, runPages classify now env batchSize fuel st = (st2, oe) →
        st2.db.map Post.id = st.db.map Post.id ∧
        st2.triaged + pendingCount st2.db = st.triaged + pendingCount st.db ∧
        st2.passed + st.triaged ≤ st2.triaged + st.passed ∧
        (∀ pid q, findPost st.db pid = some q → q.tri.isTriaged = true →
          findPost st2.db pid = some q) ∧
        (∀ pid q, findPost st.db pid = some q →
          findPost st2.db pid = some q ∨
          findPost st2.db pid = some { q with tri := terminalData classify now pid }) := by
  intro fuel
  induction fuel with
  | zero =>
    intro st _ st2 oe h
    simp only [runPages] at h
    cases h
    exact ⟨rfl, rfl, by omega, fun pid q hq _ => hq, fun pid q hq => Or.inl hq⟩
  | succ n ih =>
    intro st hdd st2 oe h
    rw [runPages_succ_eq] at h
    by_cases hstop : (st.flag || env st.t) = true
    · rw [if_pos hstop] at h
      cases h
      exact ⟨rfl, rfl, by dsimp only; omega, fun pid q hq _ => hq, fun pid q hq => Or.inl hq⟩
    · rw [if_neg hstop] at h
      by_cases hpage : (fetchPage st.db batchSize).isEmpty = true
      · rw [if_pos hpage] at h
        cases h
        exact ⟨rfl, rfl, by dsimp only; omega, fun pid q hq _ => hq, fun pid q hq => Or.inl hq⟩
      · rw [if_neg hpage] at h
        have hpair : (fetchPage st.db batchSize).Pairwise (fun a b => a.id ≠ b.id) :=
          pairwise_fetchPage batchSize hdd
        have hcur : ∀ p ∈ fetchPage st.db batchSize, findPost st.db p.id = some p :=
          fun p hp => findPost_of_mem hdd (mem_fetchPage hp).1
        rcases runPage_prefix classify now env hpair
          { st with flag := st.flag || env st.t, t := st.t + 1 } hcur
          with ⟨k, f, tt, hk, hrp⟩
        rw [hrp] at h
        dsimp only at h
        set L := (fetchPage st.db batchSize).take k with hL
        have hLpair : L.Pairwise (fun a b => a.id ≠ b.id) :=
          List.Pairwise.sublist (List.take_sublist k _) hpair
        have hLcur : ∀ p ∈ L, findPost st.db p.id = some p :=
          fun p hp => hcur p (List.mem_of_mem_take hp)
        have hLpend : ∀ p ∈ L, p.tri.isTriaged = false :=
          fun p hp => (mem_fetchPage (List.mem_of_mem_take hp)).2
        have hLlen : L.length = k := by
          rw [hL, List.length_take]
          omega
        have hmidids : (writeAll classify now L st.db).map Post.id = st.db.map Post.id :=
          writeAll_map_id classify now L st.db
        have hmiddd : DistinctIds (writeAll classify now L st.db) :=
          distinctIds_of_map_id_eq hmidids hdd
        have hmidpc : pendingCount (writeAll classify now L st.db) + k = pendingCount st.db := by
          have := pendingCount_writeAll classify now hLpair hLpend st.db hdd hLcur
          omega
        rcases ih _ hmiddd st2 oe h with ⟨i1, i2, i3, i4, i5⟩
        dsimp only at i1 i2 i3 i4 i5
        refine ⟨?_, ?_, ?_, ?_, ?_⟩
        · rw [i1]
          exact hmidids
        · omega
        · have hpassL : passCount classify L ≤ k := by
            have := passCount_le_length classify L
            omega
          omega
        · intro pid q hq htri
          have hnotin : ∀ p ∈ L, p.id ≠ pid := by
            intro p hp hpid
            have hcp := hLcur p hp
            rw [hpid, hq] at hcp
            have hpq : q = p := Option.some.inj hcp
            have hpf := hLpend p hp
            rw [← hpq, htri] at hpf
            exact Bool.noConfusion hpf
          have hmid : findPost (writeAll classify now L st.db) pid = some q := by
            rw [writeAll_findPost_notin classify now hnotin]
            exact hq
          exact i4 pid q hmid htri
        · intro pid q hq
          by_cases hin : ∃ p ∈ L, p.id = pid
          · rcases hin with ⟨p, hp, hpid⟩
            have hqp : q = p := by
              have hcp := hLcur p hp
              rw [hpid, hq] at hcp
              exact Option.some.inj hcp
            have hmid : findPost (writeAll classify now L st.db) pid =
                some { q with tri := terminalData classify now pid } := by
              have hw := writeAll_findPost_mem classify now hLpair hp st.db hLcur
              rw [hpid] at hw
              rw [hw, hqp, hpid]
            rcases i5 pid _ hmid with h5 | h5
            · exact Or.inr h5
            · refine Or.inr ?_
              rw [h5]
          · push_neg at hin
            have hmid : findPost (writeAll classify now L st.db) pid = some q := by
              rw [writeAll_findPost_notin classify now hin]
              exact hq
            exact i5 pid q hmid

theorem runPages_noStop (classify : ℕ → Except Unit RunTriageResult) (now : ℕ)
    (env : ℕ → Bool) (batchSize : ℕ) (henv : ∀ t, env t = false) (hbs : 0 < batchSize) :
    ∀ (fuel : ℕ) (st : LoopSt), DistinctIds st.db → st.flag = false →
      pendingCount st.db < fuel →
      ∃ st2, runPages classify now env batchSize fuel st = (st2, none) ∧
        st2.flag = false ∧ pendingCount st2.db = 0 := by
  intro fuel
  induction fuel with
  | zero =>
    intro st _ _ hlt
    omega
  | succ n ih =>
    intro st hdd hflag hlt
    have hcond : (st.flag || env st.t) = false := by
      rw [hflag, henv st.t]
      rfl
    rw [runPages_succ_eq, if_neg (by rw [hcond]; exact Bool.false_ne_true)]
    by_cases hzero : pendingCount st.db = 0
    · have hpage : (fetchPage st.db batchSize).isEmpty = true :=
        (fetchPage_isEmpty_iff hbs).mpr hzero
      rw [if_pos hpage]
      exact ⟨_, rfl, by rw [hcond], hzero⟩
    · have hpage : (fetchPage st.db batchSize).isEmpty = false := by
        rcases hp : (fetchPage st.db batchSize).isEmpty with _ | _
        · rfl
        · exact absurd ((fetchPage_isEmpty_iff hbs).mp hp) hzero
      rw [if_neg (by rw [hpage]; exact Bool.false_ne_true)]
      have hpair : (fetchPage st.db batchSize).Pairwise (fun a b => a.id ≠ b.id) :=
        pairwise_fetchPage batchSize hdd
      have hcur : ∀ p ∈ fetchPage st.db batchSize, findPost st.db p.id = some p :=
        fun p hp => findPost_of_mem hdd (mem_fetchPage hp).1
      have hrp := runPage_full classify now env hpair
        { st with flag := st.flag || env st.t, t := st.t + 1 } (by rw [hcond])
        (fun t _ _ => henv t) hcur
      rw [hrp]
      dsimp only
      have hplen : 0 < (fetchPage st.db batchSize).length := by
        rcases hfp : fetchPage st.db batchSize with _ | ⟨p, rest⟩
        · rw [hfp] at hpage
          simp [List.isEmpty] at hpage
        · simp
      have hLpend : ∀ p ∈ fetchPage st.db batchSize, p.tri.isTriaged = false :=
        fun p hp => (mem_fetchPage hp).2
      have hmidpc : pendingCount (writeAll classify now (fetchPage st.db batchSize) st.db) +
          (fetchPage st.db batchSize).length = pendingCount st.db :=
        pendingCount_writeAll classify now hpair hLpend st.db hdd hcur
      have hmiddd : DistinctIds (writeAll classify now (fetchPage st.db batchSize) st.db) :=
        distinctIds_of_map_id_eq (writeAll_map_id classify now _ st.db) hdd
      rcases ih { db := writeAll classify now (fetchPage st.db batchSize) st.db
                , flag := false
                , t := st.t + 1 + (fetchPage st.db batchSize).length
                , triaged := st.triaged + (fetchPage st.db batchSize).length
                , passed := st.passed + passCount classify (fetchPage st.db batchSize) }
        hmiddd rfl (by
          show pendingCount (writeAll classify now (fetchPage st.db batchSize) st.db) < n
          omega) with ⟨st2, hrec, hf2, hz2⟩
      exact ⟨st2, hrec, hf2, hz2⟩

/-! ### Bridging lemmas for the two runner entry points -/

theorem triageNewPosts_true_eq (batchSize : ℕ)
    (classify : ℕ → Except Unit RunTriageResult) (env : ℕ → Bool) (now : ℕ)
    (initFlag : Bool) (db : List Post) :
    triageNewPosts true batchSize classify env now initFlag db =
      (match runPages classify now env batchSize (db.length + 2)
          { db := db, flag := false, t := 0, triaged := 0, passed := 0 } with
       | (st, some e) => (.error e, st.db)
       | (st, none) =>
         (.ok { triaged := st.triaged, passed := st.passed
              , stopped := st.flag || env st.t }, st.db)) := rfl

theorem triageNewPosts_false_eq (batchSize : ℕ)
    (classify : ℕ → Except Unit RunTriageResult) (env : ℕ → Bool) (now : ℕ)
    (initFlag : Bool) (db : List Post) :
    triageNewPosts false batchSize classify env now initFlag db =
      (.error .config, db) := rfl

/-- The background loop body as one keyed terminal write: it picks the newest
pending row and, when that row still exists, terminally rewrites exactly it;
every failure path leaves the datastore unchanged. -/
theorem backgroundStep_eq (classify : ℕ → Except Unit RunTriageResult) (now : ℕ)
    (db : List Post) :
    backgroundStep classify now db =
      (match (pendingPosts db).head? with
       | none => db
       | some post =>
         if dbHasId db post.id then setTri db post.id (terminalData classify now post.id)
         else db) := by
  unfold backgroundStep updatePost
  rcases hh : (pendingPosts db).head? with _ | post
  · rfl
  · rcases hc : classify post.id with e | r
    · simp only [hc]
      by_cases hhas : dbHasId db post.id = true
      · simp only [hhas, if_true]
        rw [show failedData now = terminalData classify now post.id by
          unfold terminalData
          rw [hc]]
      · rw [Bool.not_eq_true] at hhas
        simp only [hhas, Bool.false_eq_true, if_false]
    · simp only [hc]
      by_cases hhas : dbHasId db post.id = true
      · simp only [hhas, if_true]
        rw [show classifiedData r now = terminalData classify now post.id by
          unfold terminalData
          rw [hc]]
      · rw [Bool.not_eq_true] at hhas
        simp only [hhas, Bool.false_eq_true, if_false]

theorem triageNewPosts_memRel (apiKey : Bool) (batchSize : ℕ)
    (classify : ℕ → Except Unit RunTriageResult) (env : ℕ → Bool) (now : ℕ)
    (initFlag : Bool) (db : List Post) :
    MemRel classify now db
      (triageNewPosts apiKey batchSize classify env now initFlag db).2 := by
  cases apiKey with
  | false =>
    rw [triageNewPosts_false_eq]
    exact memRel_refl _ _ _
  | true =>
    rw [triageNewPosts_true_eq]
    have h0 := runPages_memRel classify now env batchSize (db.length + 2)
      { db := db, flag := false, t := 0, triaged := 0, passed := 0 }
    rcases hrp : runPages classify now env batchSize (db.length + 2)
      { db := db, flag := false, t := 0, triaged := 0, passed := 0 } with ⟨st2, oe⟩
    rw [hrp] at h0
    cases oe with
    | none => exact h0
    | some e => exact h0

theorem backgroundStep_findPost_triaged (classify : ℕ → Except Unit RunTriageResult)
    (now : ℕ) {db : List Post} {p : Post} (hdd : DistinctIds db) (hp : p ∈ db)
    (ht : p.tri.isTriaged = true) :
    findPost (backgroundStep classify now db) p.id = some p := by
  rw [backgroundStep_eq]
  rcases hh : (pendingPosts db).head? with _ | post
  · exact findPost_of_mem hdd hp
  · have hpostmem : post ∈ pendingPosts db := by
      rcases List.head?_eq_some_iff.mp hh with ⟨ys, hys⟩
      rw [hys]
      exact List.mem_cons_self post ys
    have hpost := mem_pendingPosts.mp hpostmem
    have hne : p.id ≠ post.id := by
      intro heq
      have h1 : findPost db post.id = some post := findPost_of_mem hdd hpost.1
      have h2 : findPost db post.id = some p := by
        rw [← heq]
        exact findPost_of_mem hdd hp
      rw [h1] at h2
      have := Option.some.inj h2
      rw [← this, hpost.2] at ht
      exact Bool.noConfusion ht
    dsimp only
    by_cases hhas : dbHasId db post.id = true
    · rw [if_pos hhas, findPost_setTri_ne _ hne]
      exact findPost_of_mem hdd hp
    · rw [Bool.not_eq_true] at hhas
      rw [hhas]
      simp only [Bool.false_eq_true, if_false]
      exact findPost_of_mem hdd hp

theorem legalStateAmended_classified (r : RunTriageResult) (now : ℕ)
    (h1 : 0 ≤ r.score) (h2 : r.score ≤ 10) (h3 : r.reason.length ≤ 500) :
    legalStateAmended (classifiedData r now) = true := by
  unfold legalStateAmended classifiedData
  simp [h1, h2, h3]

theorem legalStateAmended_failed (now : ℕ) :
    legalStateAmended (failedData now) = true := by
  unfold legalStateAmended failedData
  simp

theorem legalStateAmended_terminal (classify : ℕ → Except Unit RunTriageResult)
    (now : ℕ) (pid : ℕ)
    (hnorm : ∀ r, classify pid = .ok r →
      0 ≤ r.score ∧ r.score ≤ 10 ∧ r.reason.length ≤ 500) :
    legalStateAmended (terminalData classify now pid) = true := by
  unfold terminalData
  rcases hc : classify pid with e | r
  · exact legalStateAmended_failed now
  · rcases hnorm r hc with ⟨h1, h2, h3⟩
    exact legalStateAmended_classified r now h1 h2 h3

/-! ### Value equations of the classifier client -/

theorem triagePost_obj (fs : List (String × Json)) :
    triagePost (some (.obj fs)) =
      .ok { passedTriage := jsTruthy (lookupProp fs "passedTriage")
          , score := normalizeScore (jsToNumber (lookupProp fs "score"))
          , reason := jsTruncate (jsOrEmptyToString (lookupProp fs "reason")) 500 } := rfl

theorem triagePost_isOk_iff (pr : Option Json) :
    (∃ r, triagePost pr = .ok r) ↔ (pr ≠ none ∧ pr ≠ some .null) := by
  constructor
  · rintro ⟨r, hr⟩
    rcases pr with _ | j
    · exact absurd hr (by simp [triagePost])
    · rcases j with _ | b | q | s | xs | fs <;>
        simp_all [triagePost, getProp]
  · rintro ⟨h1, h2⟩
    rcases pr with _ | j
    · exact absurd rfl h1
    · rcases j with _ | b | q | s | xs | fs
      · exact absurd rfl h2
      all_goals exact ⟨_, rfl⟩

/-- Validation of the `Math.round` embedding: the integer-division form of
`jsRoundQ` is exactly floor of `q + 1/2`, i.e. round to nearest with ties
towards +∞ — the ECMAScript semantics of `Math.round` on finite values. -/
theorem jsRoundQ_eq_floor (q : ℚ) : jsRoundQ q = ⌊q + 1 / 2⌋ := by
  have hdpos : (0 : ℚ) < (q.den : ℚ) := by exact_mod_cast q.pos
  have hnum : (q.num : ℚ) = q * (q.den : ℚ) := by
    have h1 := Rat.num_div_den q
    rw [div_eq_iff hdpos.ne'] at h1
    exact h1
  have hcast : q + 1 / 2 = (((2 * q.num + (q.den : ℤ)) : ℤ) : ℚ) / ((2 * q.den : ℕ) : ℚ) := by
    push_cast
    rw [hnum]
    field_simp
    ring_nf
    linarith [hnum]
  rw [hcast, Rat.floor_intCast_div_natCast]
  unfold jsRoundQ
  push_cast
  rfl

/-! ### Claim theorems -/

/-- C2: the score returned by `triagePost` is always an integer clamped to
`[0,10]`, for every value a JSON number-typed `score` field can carry (JSON
numbers are exactly the finite values, never NaN or ±∞): round to nearest
(ties towards +∞), then clamp.  The claim's examples: 13.7 ↦ 10, −2 ↦ 0,
6.4 ↦ 6. -/
theorem c2_score_clamped_integer :
    (∀ q : ℚ, ∃ k : ℤ, normalizeScore (some q) = some (k : ℚ) ∧ 0 ≤ k ∧ k ≤ 10) ∧
    (13.7 : ℚ) = mkRat 137 10 ∧ normalizeScore (some (mkRat 137 10)) = some 10 ∧
    normalizeScore (some (-2)) = some 0 ∧
    (6.4 : ℚ) = mkRat 32 5 ∧ normalizeScore (some (mkRat 32 5)) = some 6 := by
  refine ⟨?_, by norm_num, by decide, by decide, by norm_num, by decide⟩
  intro q
  refine ⟨max 0 (min 10 (jsRoundQ q)), ?_, le_max_left 0 _, ?_⟩
  · show jsMax (some 0) (jsMin (some 10) (jsRound (some q))) = _
    simp only [jsRound, jsMin, jsMax, Option.some.injEq]
    push_cast
    rfl
  · exact max_le (by decide) (min_le_left _ _)

/-- C8 counterexample: a response object that violates the constrained
schema — the required INTEGER `score` field is missing — is NOT treated as a
hard failure: `triagePost` returns a normalized result built from it, with
the missing score coerced to NaN. -/
theorem c8_counterexample :
    schemaConforms (.obj [("passedTriage", .bool true), ("reason", .str "ok")]) = false ∧
    triagePost (some (.obj [("passedTriage", .bool true), ("reason", .str "ok")])) =
      .ok { passedTriage := true, score := none, reason := "ok" } := by
  exact ⟨rfl, rfl⟩

/-- C8 amended: `triagePost` throws exactly when no parsed JSON value exists
(the call failed, timed out, or the body was not valid JSON) or the body was
the JSON literal `null`; every other JSON response — schema-conforming or
not — is coerced field by field into a returned result
(`Boolean(...)`, round-and-clamp via ToNumber, `String(... || "")`
truncation), as `triagePost_obj` records for objects. -/
theorem c8_amended_only_parse_failures_throw :
    (∀ pr : Option Json, (∃ r, triagePost pr = .ok r) ↔ (pr ≠ none ∧ pr ≠ some .null)) ∧
    (∀ fs : List (String × Json),
      triagePost (some (.obj fs)) =
        .ok { passedTriage := jsTruthy (lookupProp fs "passedTriage")
            , score := normalizeScore (jsToNumber (lookupProp fs "score"))
            , reason := jsTruncate (jsOrEmptyToString (lookupProp fs "reason")) 500 }) :=
  ⟨triagePost_isOk_iff, triagePost_obj⟩

/-- C9 counterexample: the background runner's inter-post delay (200 ms,
filter.ts line 283) is NOT strictly shorter than the batch runner's
inter-post delay (100 ms, line 171). -/
theorem c9_counterexample : ¬ backgroundPostDelayMs < batchPostDelayMs := by
  decide

/-- C9 amended: the background runner's fixed inter-post delay is strictly
LONGER than the batch runner's fixed inter-post delay (200 ms vs 100 ms). -/
theorem c9_amended_background_delay_longer :
    batchPostDelayMs < backgroundPostDelayMs := by
  decide

/-- C4: while a batch run is active (`isTriaging = true`), a second
batch-run request is rejected with HTTP 409 "Triage is already running" and
causes no state change: the datastore is untouched (hence all pending-post
counts are unchanged) and no run is started. -/
theorem c4_single_flight (apiKey : Bool) (batchSize : ℕ)
    (classify : ℕ → Except Unit RunTriageResult) (env : ℕ → Bool) (now : ℕ)
    (initFlag : Bool) (db : List Post) :
    handleTriageRequest true apiKey batchSize classify env now initFlag db =
      (.conflict, db, false) ∧
    httpStatus .conflict = 409 ∧
    alreadyRunningMsg = "Triage is already running" ∧
    pendingCount (handleTriageRequest true apiKey batchSize classify env now initFlag db).2.1 =
      pendingCount db :=
  ⟨rfl, rfl, rfl, rfl⟩

/-- C7: evaluation of the batch loop body at the failing input.  The post
`{id := 1}` was fetched but its row has vanished from the datastore before
the update; whether the classifier call succeeded or threw, the catch-block
update throws NotFound with no handler around it, so the loop body — and
with it the whole run — aborts instead of counting the post as a failure and
continuing. -/
theorem c7_update_notFound_aborts_run :
    processPost (fun _ => .ok { passedTriage := true, score := 7, reason := "ok" }) 0
      { db := [], flag := false, t := 1, triaged := 0, passed := 0 }
      { id := 1, createdUtc := 5, tri := pendingData } = .error .notFound ∧
    processPost (fun _ => .error ()) 0
      { db := [], flag := false, t := 1, triaged := 0, passed := 0 }
      { id := 1, createdUtc := 5, tri := pendingData } = .error .notFound :=
  ⟨rfl, rfl⟩

/-- C1: in a batch run (no stop requested), every post P whose classifier
call throws gets exactly the Failed record persisted — `isTriaged = true`,
`passedTriage = null`, `triageScore = null`, `triageReason =
"Triage failed"`, `triagedAt` set — and the run continues instead of
aborting: it completes with `.ok`, `stopped = false`, and every pending post
of the datastore (in particular every later post of P's page) still reaches
its terminal record. -/
theorem c1_classifier_failure_poison_pill
    (batchSize now : ℕ) (classify : ℕ → Except Unit RunTriageResult)
    (initFlag : Bool) (db : List Post) (p : Post)
    (hdd : DistinctIds db) (hbs : 0 < batchSize)
    (hp : p ∈ db) (hpend : p.tri.isTriaged = false)
    (herr : classify p.id = .error ()) :
    ∃ out : BatchOutcome,
      (triageNewPosts true batchSize classify (fun _ => false) now initFlag db).1 = .ok out ∧
      out.stopped = false ∧
      out.triaged = pendingCount db ∧
      findPost (triageNewPosts true batchSize classify (fun _ => false) now initFlag db).2 p.id =
        some { p with tri := failedData now } ∧
      (∀ q ∈ db, q.tri.isTriaged = false →
        findPost (triageNewPosts true batchSize classify (fun _ => false) now initFlag db).2 q.id =
          some { q with tri := terminalData classify now q.id }) := by
  have hfuel : pendingCount db < db.length + 2 := by
    have := List.countP_le_length (fun r => !r.tri.isTriaged) (l := db)
    unfold pendingCount
    omega
  rcases runPages_noStop classify now (fun _ => false) batchSize (fun t => rfl) hbs
    (db.length + 2) { db := db, flag := false, t := 0, triaged := 0, passed := 0 }
    hdd rfl hfuel with ⟨st2, hrun, hflag2, hzero⟩
  rcases runPages_master classify now (fun _ => false) batchSize (db.length + 2)
    { db := db, flag := false, t := 0, triaged := 0, passed := 0 } hdd st2 none hrun
    with ⟨i1, i2, i3, i4, i5⟩
  dsimp only at i2
  have hTN : triageNewPosts true batchSize classify (fun _ => false) now initFlag db =
      (.ok { triaged := st2.triaged, passed := st2.passed, stopped := false }, st2.db) := by
    rw [triageNewPosts_true_eq, hrun]
    dsimp only
    rw [hflag2]
    rfl
  have hterm : ∀ q ∈ db, q.tri.isTriaged = false →
      findPost st2.db q.id = some { q with tri := terminalData classify now q.id } := by
    intro q hq hqpend
    have hfq : findPost db q.id = some q := findPost_of_mem hdd hq
    rcases i5 q.id q hfq with h5 | h5
    · exfalso
      have hmem2 : q ∈ st2.db := findPost_mem h5
      have hz := List.countP_eq_zero.mp hzero q hmem2
      rw [hqpend] at hz
      simp at hz
    · exact h5
  refine ⟨{ triaged := st2.triaged, passed := st2.passed, stopped := false },
    by rw [hTN], rfl, ?_, ?_, ?_⟩
  · show st2.triaged = pendingCount db
    omega
  · rw [hTN]
    have hx := hterm p hp hpend
    rw [show terminalData classify now p.id = failedData now by
      unfold terminalData
      rw [herr]] at hx
    exact hx
  · rw [hTN]
    exact hterm

/-- C10: for every completed batch run, the returned `triaged` count equals
the number of posts written to a terminal state during the run (Failed posts
counted alongside Classified ones — expressed as the drop in the pending
count, since terminal writes are the only datastore mutations), and the
returned `passed` count — which counts only `passedTriage = true` results —
never exceeds it. -/
theorem c10_processed_and_passed_counters
    (apiKey : Bool) (batchSize now : ℕ) (classify : ℕ → Except Unit RunTriageResult)
    (env : ℕ → Bool) (initFlag : Bool) (db : List Post) (out : BatchOutcome)
    (hdd : DistinctIds db)
    (hok : (triageNewPosts apiKey batchSize classify env now initFlag db).1 = .ok out) :
    out.triaged + pendingCount (triageNewPosts apiKey batchSize classify env now initFlag db).2 =
      pendingCount db ∧
    out.passed ≤ out.triaged := by
  cases apiKey with
  | false =>
    rw [triageNewPosts_false_eq] at hok
    simp at hok
  | true =>
    rcases hrp : runPages classify now env batchSize (db.length + 2)
      { db := db, flag := false, t := 0, triaged := 0, passed := 0 } with ⟨st2, oe⟩
    rcases runPages_master classify now env batchSize (db.length + 2)
      { db := db, flag := false, t := 0, triaged := 0, passed := 0 } hdd st2 oe hrp
      with ⟨i1, i2, i3, i4, i5⟩
    dsimp only at i2 i3
    cases oe with
    | some e =>
      rw [triageNewPosts_true_eq, hrp] at hok
      simp at hok
    | none =>
      have hTN : triageNewPosts true batchSize classify env now initFlag db =
          (.ok { triaged := st2.triaged, passed := st2.passed
               , stopped := st2.flag || env st2.t }, st2.db) := by
        rw [triageNewPosts_true_eq, hrp]
      rw [hTN] at hok
      rw [hTN]
      have hok2 : (Except.ok { triaged := st2.triaged, passed := st2.passed, stopped := st2.flag || env st2.t } : Except PipeError BatchOutcome) = Except.ok out := hok
      have hout := Except.ok.inj hok2
      rw [← hout]
      exact ⟨by dsimp only; omega, by dsimp only; omega⟩

/-- C6: once a post P is Classified or Failed (`isTriaged = true`), no
subsequent batch or background run selects it again — both fetches filter
`isTriaged = false` — and no pipeline operation changes its stored
classification fields or reverts `isTriaged`: its row is bit-for-bit
unchanged by any batch run and by any background iteration. -/
theorem c6_terminal_rows_immutable
    (db : List Post) (p : Post) (hdd : DistinctIds db) (hp : p ∈ db)
    (ht : p.tri.isTriaged = true) :
    (∀ n, p ∉ fetchPage db n) ∧
    (pendingPosts db).head? ≠ some p ∧
    (∀ (apiKey : Bool) (batchSize : ℕ) (classify : ℕ → Except Unit RunTriageResult)
        (env : ℕ → Bool) (now : ℕ) (initFlag : Bool),
      findPost (triageNewPosts apiKey batchSize classify env now initFlag db).2 p.id = some p) ∧
    (∀ (classify : ℕ → Except Unit RunTriageResult) (now : ℕ),
      findPost (backgroundStep classify now db) p.id = some p) := by
  refine ⟨?_, ?_, ?_, ?_⟩
  · intro n hmem
    have hx := (mem_fetchPage hmem).2
    rw [ht] at hx
    exact Bool.noConfusion hx
  · intro hh
    rcases List.head?_eq_some_iff.mp hh with ⟨ys, hys⟩
    have hmem : p ∈ pendingPosts db := by
      rw [hys]
      exact List.mem_cons_self p ys
    have hx := (mem_pendingPosts.mp hmem).2
    rw [ht] at hx
    exact Bool.noConfusion hx
  · intro apiKey batchSize classify env now initFlag
    cases apiKey with
    | false =>
      rw [triageNewPosts_false_eq]
      exact findPost_of_mem hdd hp
    | true =>
      rw [triageNewPosts_true_eq]
      rcases hrp : runPages classify now env batchSize (db.length + 2)
        { db := db, flag := false, t := 0, triaged := 0, passed := 0 } with ⟨st2, oe⟩
      rcases runPages_master classify now env batchSize (db.length + 2)
        { db := db, flag := false, t := 0, triaged := 0, passed := 0 } hdd st2 oe hrp
        with ⟨i1, i2, i3, i4, i5⟩
      have hres := i4 p.id p (findPost_of_mem hdd hp) ht
      cases oe with
      | some e => exact hres
      | none => exact hres
  · intro classify now
    exact backgroundStep_findPost_triaged classify now hdd hp ht

/-- C5 amended: after every write either runner performs, each post row is
in exactly one of the three legal states — Pending, Classified, or Failed —
where the Classified reason is a string of at most 500 characters that MAY
be empty (the original claim's "non-empty" is refuted by
`c5_counterexample`).  The classifier oracle is constrained to what
`triagePost`'s normalisation can actually return: integer score in `[0,10]`
(`c2_score_clamped_integer`) and a reason of at most 500 characters. -/
theorem c5_amended_three_state_machine
    (db : List Post) (classify : ℕ → Except Unit RunTriageResult)
    (hnorm : ∀ pid r, classify pid = .ok r →
      0 ≤ r.score ∧ r.score ≤ 10 ∧ r.reason.length ≤ 500)
    (hinit : ∀ q ∈ db, legalStateAmended q.tri = true) :
    (∀ (apiKey : Bool) (batchSize : ℕ) (env : ℕ → Bool) (now : ℕ) (initFlag : Bool),
      ∀ q2 ∈ (triageNewPosts apiKey batchSize classify env now initFlag db).2,
        legalStateAmended q2.tri = true) ∧
    (∀ now : ℕ, ∀ q2 ∈ backgroundStep classify now db,
      legalStateAmended q2.tri = true) := by
  have hmem : ∀ (now : ℕ) (db2 : List Post), MemRel classify now db db2 →
      ∀ q2 ∈ db2, legalStateAmended q2.tri = true := by
    intro now db2 hrel q2 hq2
    rcases hrel q2 hq2 with h | ⟨q, hq, rfl⟩
    · exact hinit q2 h
    · show legalStateAmended (terminalData classify now q.id) = true
      exact legalStateAmended_terminal classify now q.id (fun r hr => hnorm q.id r hr)
  constructor
  · intro apiKey batchSize env now initFlag
    exact hmem now _ (triageNewPosts_memRel apiKey batchSize classify env now initFlag db)
  · intro now
    exact hmem now _ (backgroundStep_memRel classify now db)

/-- C5 counterexample: a fully schema-conforming classifier response with an
empty `reason` string yields a persisted Classified record whose reason is
`""` — outside the claim's three legal states, which require a non-empty
reason for Classified rows. -/
theorem c5_counterexample :
    schemaConforms
      (.obj [("passedTriage", .bool true), ("score", .num 7), ("reason", .str "")]) = true ∧
    triagePost
      (some (.obj [("passedTriage", .bool true), ("score", .num 7), ("reason", .str "")])) =
      .ok { passedTriage := true, score := some 7, reason := "" } ∧
    findPost
      (triageNewPosts true 50
        (fun _ => .ok { passedTriage := true, score := 7, reason := "" })
        (fun _ => false) 99 false
        [{ id := 1, createdUtc := 5, tri := pendingData }]).2 1 =
      some { id := 1, createdUtc := 5
           , tri := { isTriaged := true, passedTriage := some true, triageScore := some 7
                    , triageReason := some "", triagedAt := some 99 } } ∧
    claimLegalState { isTriaged := true, passedTriage := some true, triageScore := some 7
                    , triageReason := some "", triagedAt := some 99 } = false :=
  ⟨rfl, rfl, rfl, rfl⟩

/-- C3: for a batch run over one fetched page of N pending posts (the whole
pending set, N ≤ batch size), if `requestStop()` lands after the runner has
completed post K (1 ≤ K ≤ N — modelled as the stop flag reading true from
flag read K+1 on), then the run writes exactly posts 1..K of the page with
their terminal records, leaves posts K+1..N bit-for-bit unchanged (still
Pending), returns `stopped = true` with `triaged = K`, and the leftover
value of the stop flag from any previous run is irrelevant because line 125
resets it at the start of every run. -/
theorem c3_stop_after_k_posts
    (batchSize now K : ℕ) (classify : ℕ → Except Unit RunTriageResult)
    (initFlag : Bool) (db : List Post)
    (hdd : DistinctIds db) (hNbs : pendingCount db ≤ batchSize)
    (hK1 : 1 ≤ K) (hKN : K ≤ pendingCount db) :
    ∃ out : BatchOutcome,
      (triageNewPosts true batchSize classify (fun t => decide (K + 1 ≤ t)) now
        initFlag db).1 = .ok out ∧
      out.stopped = true ∧
      out.triaged = K ∧
      (∀ p ∈ (fetchPage db batchSize).take K,
        findPost (triageNewPosts true batchSize classify (fun t => decide (K + 1 ≤ t)) now
            initFlag db).2 p.id =
          some { p with tri := terminalData classify now p.id }) ∧
      (∀ p ∈ (fetchPage db batchSize).drop K,
        findPost (triageNewPosts true batchSize classify (fun t => decide (K + 1 ≤ t)) now
            initFlag db).2 p.id = some p) ∧
      (∀ f1 f2 : Bool,
        triageNewPosts true batchSize classify (fun t => decide (K + 1 ≤ t)) now f1 db =
        triageNewPosts true batchSize classify (fun t => decide (K + 1 ≤ t)) now f2 db) := by
  have hpage_len : (fetchPage db batchSize).length = pendingCount db := by
    rw [fetchPage_full hNbs, length_pendingPosts]
  have hpair : (fetchPage db batchSize).Pairwise (fun a b => a.id ≠ b.id) :=
    pairwise_fetchPage batchSize hdd
  have hcur : ∀ p ∈ fetchPage db batchSize, findPost db p.id = some p :=
    fun p hp => findPost_of_mem hdd (mem_fetchPage hp).1
  have hd0 : (decide (K + 1 ≤ 0) : Bool) = false := by
    simp only [decide_eq_false_iff_not]
    omega
  have hpageNE : (fetchPage db batchSize).isEmpty = false := by
    rcases hfp : fetchPage db batchSize with _ | ⟨p0, rest0⟩
    · rw [hfp] at hpage_len
      simp only [List.length_nil] at hpage_len
      omega
    · rfl
  have hrun : ∃ t3, runPages classify now (fun t => decide (K + 1 ≤ t)) batchSize
      (db.length + 2) { db := db, flag := false, t := 0, triaged := 0, passed := 0 } =
      ({ db := writeAll classify now ((fetchPage db batchSize).take K) db
       , flag := true, t := t3, triaged := K
       , passed := passCount classify ((fetchPage db batchSize).take K) }, none) := by
    have h2 : db.length + 2 = (db.length + 1) + 1 := rfl
    rw [h2, runPages_succ_eq]
    dsimp only
    rw [hd0]
    simp only [Bool.or_self, Bool.false_eq_true, if_false]
    rw [hpageNE]
    simp only [Bool.false_eq_true, if_false]
    by_cases hlt : K < pendingCount db
    · have hbr := runPage_break classify now (fun t => decide (K + 1 ≤ t)) (M := K + 1)
        hpair { db := db, flag := false, t := 0 + 1, triaged := 0, passed := 0 }
        rfl (by dsimp only; omega)
        (by
          dsimp only
          rw [hpage_len]
          omega)
        (by
          intro t h1 h2
          show decide (K + 1 ≤ t) = false
          simp only [decide_eq_false_iff_not]
          omega)
        (by
          show decide (K + 1 ≤ K + 1) = true
          simp only [decide_eq_true_eq]
          omega)
        hcur
      dsimp only at hbr
      rw [show K + 1 - (0 + 1) = K from by omega] at hbr
      simp only [Nat.zero_add] at hbr
      rw [hbr]
      dsimp only
      rw [runPages_succ_eq]
      dsimp only
      simp only [Bool.true_or, if_true]
      exact ⟨K + 1 + 1 + 1, rfl⟩
    · have hKeq : K = pendingCount db := by omega
      have htakeK : (fetchPage db batchSize).take K = fetchPage db batchSize :=
        List.take_of_length_le (by rw [hpage_len]; omega)
      rw [htakeK]
      have hlenK : (fetchPage db batchSize).length = K := by
        rw [hpage_len]
        omega
      have hfull := runPage_full classify now (fun t => decide (K + 1 ≤ t)) hpair
        { db := db, flag := false, t := 0 + 1, triaged := 0, passed := 0 }
        rfl
        (by
          intro t h1 h2
          have h1a : 0 + 1 ≤ t := h1
          have h2a : t < 0 + 1 + (fetchPage db batchSize).length := h2
          rw [hlenK] at h2a
          show decide (K + 1 ≤ t) = false
          simp only [decide_eq_false_iff_not]
          omega)
        hcur
      dsimp only at hfull
      simp only [Nat.zero_add] at hfull
      rw [hlenK] at hfull
      rw [hfull]
      dsimp only
      rw [runPages_succ_eq]
      dsimp only
      simp only [Bool.false_or]
      rw [show (decide (K + 1 ≤ 1 + K) : Bool) = true from by
        simp only [decide_eq_true_eq]
        omega]
      rw [if_pos rfl]
      exact ⟨1 + K + 1, rfl⟩
  rcases hrun with ⟨t3, hrun⟩
  have hTN : triageNewPosts true batchSize classify (fun t => decide (K + 1 ≤ t)) now
      initFlag db =
      (.ok { triaged := K
           , passed := passCount classify ((fetchPage db batchSize).take K)
           , stopped := true },
       writeAll classify now ((fetchPage db batchSize).take K) db) := by
    rw [triageNewPosts_true_eq, hrun]
    rfl
  have hpairTake : ((fetchPage db batchSize).take K).Pairwise (fun a b => a.id ≠ b.id) :=
    List.Pairwise.sublist (List.take_sublist K _) hpair
  have hcurTake : ∀ q ∈ (fetchPage db batchSize).take K, findPost db q.id = some q :=
    fun q hq => hcur q (List.mem_of_mem_take hq)
  refine ⟨{ triaged := K
          , passed := passCount classify ((fetchPage db batchSize).take K)
          , stopped := true }, by rw [hTN], rfl, rfl, ?_, ?_, fun f1 f2 => rfl⟩
  · intro p hpmem
    rw [hTN]
    exact writeAll_findPost_mem classify now hpairTake hpmem db hcurTake
  · intro p hpmem
    rw [hTN]
    have hsplit : (fetchPage db batchSize).take K ++ (fetchPage db batchSize).drop K =
        fetchPage db batchSize := List.take_append_drop K _
    have hpairApp := hpair
    rw [← hsplit] at hpairApp
    have hcross := (List.pairwise_append.mp hpairApp).2.2
    have hnotin : ∀ q ∈ (fetchPage db batchSize).take K, q.id ≠ p.id :=
      fun q hq => hcross q hq p hpmem
    show findPost (writeAll classify now ((fetchPage db batchSize).take K) db) p.id = some p
    rw [writeAll_findPost_notin classify now hnotin]
    exact findPost_of_mem hdd (mem_fetchPage (List.mem_of_mem_drop hpmem)).1

/-! ### Concrete witnesses -/

/-- Witness for C1 at a concrete two-post datastore whose classifier throws
on post 1 and succeeds on post 2. -/
theorem c1_witness :
    DistinctIds [⟨1, 10, pendingData⟩, ⟨2, 20, pendingData⟩] ∧ 0 < 50 ∧
    (⟨1, 10, pendingData⟩ : Post) ∈ [⟨1, 10, pendingData⟩, ⟨2, 20, pendingData⟩] ∧
    (⟨1, 10, pendingData⟩ : Post).tri.isTriaged = false ∧
    ((fun pid => if pid == 1 then Except.error ()
      else Except.ok { passedTriage := true, score := 8, reason := "good" }) :
        ℕ → Except Unit RunTriageResult) (⟨1, 10, pendingData⟩ : Post).id = .error () ∧
    (∃ out : BatchOutcome,
      (triageNewPosts true 50
        (fun pid => if pid == 1 then Except.error ()
          else Except.ok { passedTriage := true, score := 8, reason := "good" })
        (fun _ => false) 7 false [⟨1, 10, pendingData⟩, ⟨2, 20, pendingData⟩]).1 = .ok out ∧
      out.stopped = false ∧
      out.triaged = pendingCount [⟨1, 10, pendingData⟩, ⟨2, 20, pendingData⟩] ∧
      findPost (triageNewPosts true 50
        (fun pid => if pid == 1 then Except.error ()
          else Except.ok { passedTriage := true, score := 8, reason := "good" })
        (fun _ => false) 7 false [⟨1, 10, pendingData⟩, ⟨2, 20, pendingData⟩]).2
          (⟨1, 10, pendingData⟩ : Post).id =
        some { id := 1, createdUtc := 10, tri := failedData 7 } ∧
      (∀ q ∈ [(⟨1, 10, pendingData⟩ : Post), ⟨2, 20, pendingData⟩], q.tri.isTriaged = false →
        findPost (triageNewPosts true 50
          (fun pid => if pid == 1 then Except.error ()
            else Except.ok { passedTriage := true, score := 8, reason := "good" })
          (fun _ => false) 7 false [⟨1, 10, pendingData⟩, ⟨2, 20, pendingData⟩]).2 q.id =
          some { q with tri := terminalData (fun pid => if pid == 1 then Except.error () else Except.ok { passedTriage := true, score := 8, reason := "good" }) 7 q.id })) :=
  ⟨by decide, by decide, by decide, by decide, rfl,
    c1_classifier_failure_poison_pill 50 7
      (fun pid => if pid == 1 then Except.error ()
        else Except.ok { passedTriage := true, score := 8, reason := "good" })
      false [⟨1, 10, pendingData⟩, ⟨2, 20, pendingData⟩] ⟨1, 10, pendingData⟩
      (by decide) (by decide) (by decide) (by decide) rfl⟩

/-- Witness for C3 at a concrete two-post datastore with a stop request
landing after the first processed post. -/
theorem c3_witness :
    DistinctIds [⟨1, 10, pendingData⟩, ⟨2, 20, pendingData⟩] ∧
    pendingCount [⟨1, 10, pendingData⟩, ⟨2, 20, pendingData⟩] ≤ 50 ∧
    1 ≤ 1 ∧ 1 ≤ pendingCount [⟨1, 10, pendingData⟩, ⟨2, 20, pendingData⟩] ∧
    (∃ out : BatchOutcome,
      (triageNewPosts true 50 (fun _ => Except.ok { passedTriage := false, score := 2, reason := "no" })
        (fun t => decide (1 + 1 ≤ t)) 3 true [⟨1, 10, pendingData⟩, ⟨2, 20, pendingData⟩]).1 =
        .ok out ∧
      out.stopped = true ∧
      out.triaged = 1 ∧
      (∀ p ∈ (fetchPage [(⟨1, 10, pendingData⟩ : Post), ⟨2, 20, pendingData⟩] 50).take 1,
        findPost (triageNewPosts true 50
            (fun _ => Except.ok { passedTriage := false, score := 2, reason := "no" })
            (fun t => decide (1 + 1 ≤ t)) 3 true
            [⟨1, 10, pendingData⟩, ⟨2, 20, pendingData⟩]).2 p.id =
          some { p with tri := terminalData (fun _ => Except.ok { passedTriage := false, score := 2, reason := "no" }) 3 p.id }) ∧
      (∀ p ∈ (fetchPage [(⟨1, 10, pendingData⟩ : Post), ⟨2, 20, pendingData⟩] 50).drop 1,
        findPost (triageNewPosts true 50
            (fun _ => Except.ok { passedTriage := false, score := 2, reason := "no" })
            (fun t => decide (1 + 1 ≤ t)) 3 true
            [⟨1, 10, pendingData⟩, ⟨2, 20, pendingData⟩]).2 p.id = some p) ∧
      (∀ f1 f2 : Bool,
        triageNewPosts true 50 (fun _ => Except.ok { passedTriage := false, score := 2, reason := "no" })
          (fun t => decide (1 + 1 ≤ t)) 3 f1 [⟨1, 10, pendingData⟩, ⟨2, 20, pendingData⟩] =
        triageNewPosts true 50 (fun _ => Except.ok { passedTriage := false, score := 2, reason := "no" })
          (fun t => decide (1 + 1 ≤ t)) 3 f2 [⟨1, 10, pendingData⟩, ⟨2, 20, pendingData⟩])) :=
  ⟨by decide, by decide, by decide, by decide,
    c3_stop_after_k_posts 50 3 1
      (fun _ => Except.ok { passedTriage := false, score := 2, reason := "no" })
      true [⟨1, 10, pendingData⟩, ⟨2, 20, pendingData⟩]
      (by decide) (by decide) (by decide) (by decide)⟩

/-- Witness for C5 (amended) at a concrete one-post datastore with a
normalised classifier oracle. -/
theorem c5_amended_witness :
    (∀ (pid : ℕ) (r : RunTriageResult),
      (Except.ok { passedTriage := true, score := 7, reason := "ok" } : Except Unit RunTriageResult) =
        Except.ok r → 0 ≤ r.score ∧ r.score ≤ 10 ∧ r.reason.length ≤ 500) ∧
    (∀ q ∈ [(⟨1, 4, pendingData⟩ : Post)], legalStateAmended q.tri = true) ∧
    ((∀ (apiKey : Bool) (batchSize : ℕ) (env : ℕ → Bool) (now : ℕ) (initFlag : Bool),
      ∀ q2 ∈ (triageNewPosts apiKey batchSize
          (fun _ => Except.ok { passedTriage := true, score := 7, reason := "ok" })
          env now initFlag [⟨1, 4, pendingData⟩]).2,
        legalStateAmended q2.tri = true) ∧
     (∀ now : ℕ, ∀ q2 ∈ backgroundStep
          (fun _ => Except.ok { passedTriage := true, score := 7, reason := "ok" })
          now [⟨1, 4, pendingData⟩],
        legalStateAmended q2.tri = true)) :=
  ⟨fun pid r h => by
      injection h with h2
      subst h2
      exact ⟨by decide, by decide, by decide⟩,
   by decide,
   c5_amended_three_state_machine [⟨1, 4, pendingData⟩]
     (fun _ => Except.ok { passedTriage := true, score := 7, reason := "ok" })
     (fun pid r h => by
       injection h with h2
       subst h2
       exact ⟨by decide, by decide, by decide⟩)
     (by decide)⟩

/-- Witness for C6 at a concrete datastore holding one Classified and one
Pending post. -/
theorem c6_witness :
    DistinctIds [⟨1, 10, ⟨true, some true, some 9, some "yes", some 5⟩⟩, ⟨2, 20, pendingData⟩] ∧
    (⟨1, 10, ⟨true, some true, some 9, some "yes", some 5⟩⟩ : Post) ∈
      [⟨1, 10, ⟨true, some true, some 9, some "yes", some 5⟩⟩, ⟨2, 20, pendingData⟩] ∧
    (⟨1, 10, ⟨true, some true, some 9, some "yes", some 5⟩⟩ : Post).tri.isTriaged = true ∧
    ((∀ n, (⟨1, 10, ⟨true, some true, some 9, some "yes", some 5⟩⟩ : Post) ∉
        fetchPage [⟨1, 10, ⟨true, some true, some 9, some "yes", some 5⟩⟩, ⟨2, 20, pendingData⟩] n) ∧
     (pendingPosts [⟨1, 10, ⟨true, some true, some 9, some "yes", some 5⟩⟩, ⟨2, 20, pendingData⟩]).head? ≠
        some ⟨1, 10, ⟨true, some true, some 9, some "yes", some 5⟩⟩ ∧
     (∀ (apiKey : Bool) (batchSize : ℕ) (classify : ℕ → Except Unit RunTriageResult)
         (env : ℕ → Bool) (now : ℕ) (initFlag : Bool),
       findPost (triageNewPosts apiKey batchSize classify env now initFlag
           [⟨1, 10, ⟨true, some true, some 9, some "yes", some 5⟩⟩, ⟨2, 20, pendingData⟩]).2
           (⟨1, 10, ⟨true, some true, some 9, some "yes", some 5⟩⟩ : Post).id =
         some ⟨1, 10, ⟨true, some true, some 9, some "yes", some 5⟩⟩) ∧
     (∀ (classify : ℕ → Except Unit RunTriageResult) (now : ℕ),
       findPost (backgroundStep classify now
           [⟨1, 10, ⟨true, some true, some 9, some "yes", some 5⟩⟩, ⟨2, 20, pendingData⟩])
           (⟨1, 10, ⟨true, some true, some 9, some "yes", some 5⟩⟩ : Post).id =
         some ⟨1, 10, ⟨true, some true, some 9, some "yes", some 5⟩⟩)) :=
  ⟨by decide, by decide, by decide,
   c6_terminal_rows_immutable
     [⟨1, 10, ⟨true, some true, some 9, some "yes", some 5⟩⟩, ⟨2, 20, pendingData⟩]
     ⟨1, 10, ⟨true, some true, some 9, some "yes", some 5⟩⟩
     (by decide) (by decide) (by decide)⟩

/-- Witness for C10 at a concrete two-post run where post 2 passes and
post 1 fails with a classifier error. -/
theorem c10_witness :
    DistinctIds [⟨1, 10, pendingData⟩, ⟨2, 20, pendingData⟩] ∧
    (triageNewPosts true 50
      (fun pid => if pid == 1 then Except.error ()
        else Except.ok { passedTriage := true, score := 8, reason := "g" })
      (fun _ => false) 7 false [⟨1, 10, pendingData⟩, ⟨2, 20, pendingData⟩]).1 =
      .ok { triaged := 2, passed := 1, stopped := false } ∧
    (({ triaged := 2, passed := 1, stopped := false } : BatchOutcome).triaged +
      pendingCount (triageNewPosts true 50
        (fun pid => if pid == 1 then Except.error ()
          else Except.ok { passedTriage := true, score := 8, reason := "g" })
        (fun _ => false) 7 false [⟨1, 10, pendingData⟩, ⟨2, 20, pendingData⟩]).2 =
      pendingCount [⟨1, 10, pendingData⟩, ⟨2, 20, pendingData⟩] ∧
    ({ triaged := 2, passed := 1, stopped := false } : BatchOutcome).passed ≤
      ({ triaged := 2, passed := 1, stopped := false } : BatchOutcome).triaged) :=
  ⟨by decide, rfl,
   c10_processed_and_passed_counters true 50 7
     (fun pid => if pid == 1 then Except.error ()
       else Except.ok { passedTriage := true, score := 8, reason := "g" })
     (fun _ => false) false [⟨1, 10, pendingData⟩, ⟨2, 20, pendingData⟩]
     { triaged := 2, passed := 1, stopped := false } (by decide) rfl⟩

end RRC
